import Mathlib

/-!
Verification development for the AI-Hoshino course-timetabling engine.

The Python sources are shallowly embedded: Python `int` becomes `Int`,
float penalty arithmetic becomes exact `ℚ` arithmetic (all weights are
dyadic rationals, exactly representable), float temperatures and
`math.exp` become `ℝ` with `Real.exp`, and every call to the `random`
module is replaced by an explicit pseudo-random oracle (`Rng`) indexed
by a call counter, together with contract hypotheses mirroring the
documented behaviour of `random.randint` / `random.choice` /
`random.sample` / `random.random`.  Python dictionaries (which preserve
insertion order) are embedded as association lists built in insertion
order.
-/

set_option maxHeartbeats 1000000

set_option maxRecDepth 8000

attribute [local semireducible] Rat.add Rat.mul Rat.sub Rat.inv

/-- `src/models/time_slot.py`: a time slot.  `day` is the `.value` of the
`TimeSlot.Day` enum (0 = Monday … 6 = Sunday); hours are Python ints. -/
structure TimeSlot where
  day : Int
  start_hour : Int
  end_hour : Int
deriving DecidableEq, Repr

/-- `TimeSlot.duration`: `end_hour - start_hour`. -/
def TimeSlot.duration (t : TimeSlot) : Int := t.end_hour - t.start_hour

/-- `TimeSlot.overlaps_with`: same day and the half-open hour intervals
intersect. -/
def TimeSlot.overlaps_with (t o : TimeSlot) : Bool :=
  if t.day ≠ o.day then false
  else !(t.end_hour ≤ o.start_hour ∨ t.start_hour ≥ o.end_hour)

/-- `TimeSlot.get_overlap_duration`: 0 when not overlapping, otherwise
`min end - max start`. -/
def TimeSlot.get_overlap_duration (t o : TimeSlot) : Int :=
  if ¬ t.overlaps_with o then 0
  else min t.end_hour o.end_hour - max t.start_hour o.start_hour

/-- `src/models/student.py`: a student has an id and an ordered list of
enrolled class codes (index 0 = most preferred). -/
structure Student where
  id : String
  classes : List String
deriving DecidableEq, Repr

/-- `Student.get_priority`: 1-based index of the code in the student's
class list, or `len + 1` when absent (`list.index` raising `ValueError`). -/
def Student.get_priority (s : Student) (class_code : String) : Nat :=
  match s.classes.findIdx? (fun c => c = class_code) with
  | some i => i + 1
  | none => s.classes.length + 1

/-- `src/models/course_class.py`: a course class. -/
structure CourseClass where
  code : String
  studentCount : Int
  credits : Int
  students : List Student
deriving DecidableEq, Repr

/-- `src/models/room.py`: a room. -/
structure Room where
  code : String
  capacity : Int
deriving DecidableEq, Repr

/-- `State.Allocation` from `src/main/state.py`: one scheduled meeting. -/
structure Allocation where
  course_class : CourseClass
  time_slot : TimeSlot
  room : Room
deriving DecidableEq, Repr

/-- `State` from `src/main/state.py`: an ordered list of meetings. -/
structure State where
  meetings : List Allocation
deriving DecidableEq, Repr

def dummyRoom : Room := ⟨"", 0⟩

def dummyClass : CourseClass := ⟨"", 0, 0, []⟩

def dummyAllocation : Allocation := ⟨dummyClass, ⟨0, 0, 0⟩, dummyRoom⟩

def dummyState : State := ⟨[]⟩

/-! ## Insertion-ordered dictionaries

Python `dict`s that map keys to growing lists (`student_meetings`,
`room_time_meetings`) are embedded as association lists to which
`insertItem` appends exactly the way the Python code does
(`d.setdefault(k, []).append(v)` / `defaultdict(list)`). -/

/-- Append `a` to the entry of key `k`, or add a new entry at the end. -/
def insertItem {κ α : Type} [DecidableEq κ] :
    List (κ × List α) → κ → α → List (κ × List α)
  | [], k, a => [(k, [a])]
  | (k', as) :: rest, k, a =>
    if k' = k then (k', as ++ [a]) :: rest else (k', as) :: insertItem rest k a

/-- Build the dictionary from an in-order list of (key, item) pairs. -/
def groupPairs {κ α : Type} [DecidableEq κ] (l : List (κ × α)) : List (κ × List α) :=
  l.foldl (fun g p => insertItem g p.1 p.2) []

/-- The items stored under key `k` (concatenated over duplicate entries;
with `Nodup` keys this is the single entry's list). -/
def itemsOf {κ α : Type} [DecidableEq κ] (g : List (κ × List α)) (k : κ) : List α :=
  (g.filter (fun p => p.1 = k)).flatMap (fun p => p.2)

/-- An integer-counting dictionary (`defaultdict(int)` with `+= 1`). -/
def bumpCount {κ : Type} [DecidableEq κ] : List (κ × Nat) → κ → List (κ × Nat)
  | [], k => [(k, 1)]
  | (k', c) :: rest, k =>
    if k' = k then (k', c + 1) :: rest else (k', c) :: bumpCount rest k

/-! ## The objective function (`src/main/objective.py`) -/

/-- `ObjectiveFunction.PRIORITY_WEIGHTS.get(p, 1.0)`:
1 ↦ 1.75, 2 ↦ 1.50, 3 ↦ 1.25, otherwise 1.0. -/
def priorityWeight (p : Nat) : ℚ :=
  if p = 1 then 7/4 else if p = 2 then 3/2 else if p = 3 then 5/4 else 1

/-- The in-order (student id, meeting) pairs traversed by the grouping
loop of `calculate_time_conflict_penalty`. -/
def studentPairs (s : State) : List (String × Allocation) :=
  s.meetings.flatMap (fun m => m.course_class.students.map (fun st => (st.id, m)))

/-- The `student_meetings` dictionary: meetings grouped by student id in
insertion order. -/
def student_meetings (s : State) : List (String × List Allocation) :=
  groupPairs (studentPairs s)

/-- The overlap added for one pair of a student's meetings: same day and
`max start < min end` contributes `min end - max start` hours. -/
def overlapAmount (m1 m2 : Allocation) : Int :=
  if m1.time_slot.day = m2.time_slot.day then
    let overlap_start := max m1.time_slot.start_hour m2.time_slot.start_hour
    let overlap_end := min m1.time_slot.end_hour m2.time_slot.end_hour
    if overlap_start < overlap_end then overlap_end - overlap_start else 0
  else 0

/-- The double loop `for i … for j in range(i+1, …)` over one student's
meeting list. -/
def pairConflicts : List Allocation → Int
  | [] => 0
  | m :: rest => (rest.map (fun m2 => overlapAmount m m2)).sum + pairConflicts rest

/-- `ObjectiveFunction.calculate_time_conflict_penalty`. -/
def calculate_time_conflict_penalty (s : State) : ℚ :=
  (((student_meetings s).map (fun p => pairConflicts p.2)).sum : Int)

/-- Cell keys of the `room_time_meetings` dictionary:
`(room.code, day.value, hour)`. -/
abbrev CellKey := String × Int × Int

/-- `range(start_hour, end_hour)` over Python ints. -/
def hourRange (a b : Int) : List Int :=
  (List.range (b - a).toNat).map (fun i => a + (i : Int))

/-- The in-order (cell, meeting) pairs traversed by the grouping loop of
`_calculate_room_conflict_penalty`. -/
def cellPairs (s : State) : List (CellKey × Allocation) :=
  s.meetings.flatMap (fun m =>
    (hourRange m.time_slot.start_hour m.time_slot.end_hour).map
      (fun h => ((m.room.code, m.time_slot.day, h), m)))

/-- The `room_time_meetings` dictionary. -/
def room_time_meetings (s : State) : List (CellKey × List Allocation) :=
  groupPairs (cellPairs s)

/-- The weighted headcount one conflicting meeting contributes to an
over-occupied cell: a priority-count dictionary summed with
`PRIORITY_WEIGHTS`, or the `studentCount` fallback at priority-1 weight
when the per-student list is empty. -/
def meetingHourWeight (m : Allocation) : ℚ :=
  if m.course_class.students = [] then
    priorityWeight 1 * (m.course_class.studentCount : ℚ)
  else
    let priority_counts := m.course_class.students.foldl
      (fun g st => bumpCount g (st.get_priority m.course_class.code)) []
    (priority_counts.map (fun pc => priorityWeight pc.1 * (pc.2 : ℚ))).sum

/-- `ObjectiveFunction._calculate_room_conflict_penalty`. -/
def calculate_room_conflict_penalty (s : State) : ℚ :=
  ((room_time_meetings s).map (fun p =>
    if 1 < p.2.length then (p.2.map meetingHourWeight).sum else 0)).sum

/-- `ObjectiveFunction._calculate_capacity_penalty`. -/
def calculate_capacity_penalty (s : State) : ℚ :=
  (s.meetings.map (fun m =>
    if m.room.capacity < m.course_class.studentCount then
      (((m.course_class.studentCount - m.room.capacity) * m.time_slot.duration : Int) : ℚ)
    else 0)).sum

/-- The three term toggles of `ObjectiveFunction.__init__`. -/
structure ObjectiveFunction where
  student_conflict : Bool
  room_conflict : Bool
  capacity : Bool
deriving DecidableEq, Repr

/-- The default `ObjectiveFunction()` (all three terms enabled). -/
def ObjectiveFunction.default : ObjectiveFunction := ⟨true, true, true⟩

/-- `ObjectiveFunction.calculate`. -/
def ObjectiveFunction.calculate (f : ObjectiveFunction) (state : State) : ℚ :=
  (if f.student_conflict then calculate_time_conflict_penalty state else 0) +
  (if f.room_conflict then calculate_room_conflict_penalty state else 0) +
  (if f.capacity then calculate_capacity_penalty state else 0)

/-! ## Reference definitions written from the specification's words

These follow spec §4.2 (the three penalty terms) literally, as
per-student / per-cell sums, to be compared with the dictionary-based
code above in claim C1. -/

/-- Spec: the students (by id) enrolled in any scheduled class, i.e. the
groups of the "group meetings by enrolled student" step. -/
def specStudentIds (s : State) : List String :=
  (s.meetings.flatMap (fun m => m.course_class.students.map (fun st => st.id))).dedup

/-- Spec: the meetings of one student. -/
def specMeetingsOf (s : State) (sid : String) : List Allocation :=
  s.meetings.filter (fun m => m.course_class.students.any (fun st => st.id = sid))

/-- Spec §4.2 term 1: for every unordered pair of a student's meetings on
the same day, add their overlap duration in hours. -/
def specTimeConflict (s : State) : ℚ :=
  (((specStudentIds s).map (fun sid => pairConflicts (specMeetingsOf s sid))).sum : Int)

/-- Spec: the distinct occupied (room, day, hour) cells of the schedule. -/
def specCells (s : State) : List CellKey :=
  ((cellPairs s).map Prod.fst).dedup

/-- Spec: the meetings occupying one cell. -/
def specCellMeetings (s : State) (c : CellKey) : List Allocation :=
  ((cellPairs s).filter (fun p => p.1 = c)).map Prod.snd

/-- Spec §4.2 term 2: each affected class's enrolled students contribute
a weight keyed by that student's priority for the class; aggregate
`studentCount` at priority-1 weight when per-student detail is absent. -/
def specMeetingWeight (m : Allocation) : ℚ :=
  if m.course_class.students = [] then
    7/4 * (m.course_class.studentCount : ℚ)
  else
    (m.course_class.students.map
      (fun st => priorityWeight (st.get_priority m.course_class.code))).sum

/-- Spec §4.2 term 2: sum, over cells occupied by more than one meeting,
of the weighted headcount. -/
def specRoomConflict (s : State) : ℚ :=
  ((specCells s).map (fun c =>
    if 1 < (specCellMeetings s c).length then
      ((specCellMeetings s c).map specMeetingWeight).sum
    else 0)).sum

/-- Spec §4.2 term 3: `(studentCount - capacity) × duration` for every
meeting whose class overflows its room. -/
def specCapacity (s : State) : ℚ :=
  (s.meetings.map (fun m =>
    if m.room.capacity < m.course_class.studentCount then
      (((m.course_class.studentCount - m.room.capacity) : ℚ)) * ((m.time_slot.duration : Int) : ℚ)
    else 0)).sum

/-! ## Dictionary lemmas -/

section Grouping

variable {κ α : Type} [DecidableEq κ]

theorem itemsOf_nil (k : κ) : itemsOf ([] : List (κ × List α)) k = [] := rfl

theorem itemsOf_cons (k0 : κ) (as : List α) (rest : List (κ × List α)) (k : κ) :
    itemsOf ((k0, as) :: rest) k
      = (if k0 = k then as else []) ++ itemsOf rest k := by
  by_cases h : k0 = k <;> simp [itemsOf, h]

theorem itemsOf_eq_nil_of_not_mem (g : List (κ × List α)) (k : κ)
    (h : k ∉ g.map Prod.fst) : itemsOf g k = [] := by
  induction g with
  | nil => rfl
  | cons p rest ih =>
    obtain ⟨k0, as⟩ := p
    rw [itemsOf_cons]
    have h0 : k0 ≠ k := by
      intro he; exact h (by simp [he])
    have h1 : k ∉ rest.map Prod.fst := by
      intro hm; exact h (by simp [hm])
    simp [h0, ih h1]

theorem insertItem_keys (g : List (κ × List α)) (k : κ) (a : α) :
    (insertItem g k a).map Prod.fst =
      if k ∈ g.map Prod.fst then g.map Prod.fst else g.map Prod.fst ++ [k] := by
  induction g with
  | nil => simp [insertItem]
  | cons p rest ih =>
    obtain ⟨k', as⟩ := p
    simp only [insertItem]
    by_cases h : k' = k
    · subst h
      simp
    · rw [if_neg h]
      simp only [List.map_cons]
      rw [ih]
      by_cases hm : k ∈ rest.map Prod.fst
      · simp [hm, Ne.symm h]
      · simp [hm, Ne.symm h]

theorem insertItem_nodup (g : List (κ × List α)) (k : κ) (a : α)
    (h : (g.map Prod.fst).Nodup) : ((insertItem g k a).map Prod.fst).Nodup := by
  rw [insertItem_keys]
  by_cases hm : k ∈ g.map Prod.fst
  · simpa [hm] using h
  · simp only [hm, if_neg]
    simp [List.nodup_append, h, hm]

theorem itemsOf_insert (g : List (κ × List α)) (k : κ) (a : α)
    (hg : (g.map Prod.fst).Nodup) (k' : κ) :
    itemsOf (insertItem g k a) k'
      = itemsOf g k' ++ (if k' = k then [a] else []) := by
  induction g with
  | nil =>
    by_cases h : k' = k
    · subst h; simp [insertItem, itemsOf_cons, itemsOf_nil]
    · simp [insertItem, itemsOf_cons, itemsOf_nil, h, Ne.symm h]
  | cons p rest ih =>
    obtain ⟨k0, as⟩ := p
    rw [List.map_cons, List.nodup_cons] at hg
    obtain ⟨h0, hr⟩ := hg
    simp only [insertItem]
    by_cases h : k0 = k
    · subst h
      rw [if_pos rfl, itemsOf_cons, itemsOf_cons]
      by_cases h2 : k0 = k'
      · subst h2
        rw [if_pos rfl, if_pos rfl, if_pos rfl,
            itemsOf_eq_nil_of_not_mem rest k0 h0]
        simp
      · rw [if_neg h2, if_neg h2, if_neg (fun he : k' = k0 => h2 he.symm)]
        simp
    · rw [if_neg h, itemsOf_cons, itemsOf_cons, ih hr]
      simp [List.append_assoc]

theorem foldl_insert_keys_nodup :
    ∀ (l : List (κ × α)) (g : List (κ × List α)), (g.map Prod.fst).Nodup →
      (((l.foldl (fun g p => insertItem g p.1 p.2) g)).map Prod.fst).Nodup
  | [], _, h => h
  | p :: rest, g, h =>
    foldl_insert_keys_nodup rest _ (insertItem_nodup g p.1 p.2 h)

theorem foldl_insert_itemsOf :
    ∀ (l : List (κ × α)) (g : List (κ × List α)), (g.map Prod.fst).Nodup →
      ∀ k, itemsOf (l.foldl (fun g p => insertItem g p.1 p.2) g) k
        = itemsOf g k ++ (l.filter (fun p => p.1 = k)).map Prod.snd
  | [], _, _, k => by simp
  | p :: rest, g, h, k => by
    rw [List.foldl_cons,
        foldl_insert_itemsOf rest _ (insertItem_nodup g p.1 p.2 h) k,
        itemsOf_insert g p.1 p.2 h k]
    by_cases hk : p.1 = k
    · simp [List.filter_cons, hk, eq_comm]
    · have hk2 : ¬ k = p.1 := fun he => hk he.symm
      simp [List.filter_cons, hk, hk2]

theorem foldl_insert_mem_keys :
    ∀ (l : List (κ × α)) (g : List (κ × List α)) (k : κ),
      (k ∈ (l.foldl (fun g p => insertItem g p.1 p.2) g).map Prod.fst
        ↔ k ∈ g.map Prod.fst ∨ k ∈ l.map Prod.fst)
  | [], _, k => by simp
  | p :: rest, g, k => by
    rw [List.foldl_cons, foldl_insert_mem_keys rest _ k, insertItem_keys]
    by_cases hm : p.1 ∈ g.map Prod.fst
    · rw [if_pos hm]
      constructor
      · rintro (h | h)
        · exact Or.inl h
        · exact Or.inr (by simp [h])
      · rintro (h | h)
        · exact Or.inl h
        · rcases (by simpa using h : k = p.1 ∨ k ∈ rest.map Prod.fst) with h1 | h1
          · exact Or.inl (h1 ▸ hm)
          · exact Or.inr h1
    · rw [if_neg hm]
      constructor
      · rintro (h | h)
        · rcases (by simpa using h : k ∈ g.map Prod.fst ∨ k = p.1) with h1 | h1
          · exact Or.inl h1
          · exact Or.inr (by simp [h1])
        · exact Or.inr (by simp [h])
      · rintro (h | h)
        · exact Or.inl (by simp [h])
        · rcases (by simpa using h : k = p.1 ∨ k ∈ rest.map Prod.fst) with h1 | h1
          · exact Or.inl (by simp [h1])
          · exact Or.inr h1

theorem itemsOf_of_mem :
    ∀ (g : List (κ × List α)), (g.map Prod.fst).Nodup →
      ∀ k as, (k, as) ∈ g → itemsOf g k = as := by
  intro g
  induction g with
  | nil => intro _ k as h; simp at h
  | cons p rest ih =>
    intro hnd k as hmem
    obtain ⟨k0, as0⟩ := p
    rw [List.map_cons, List.nodup_cons] at hnd
    obtain ⟨h0, hr⟩ := hnd
    rcases List.mem_cons.mp hmem with h | h
    · rw [Prod.mk.injEq] at h
      obtain ⟨rfl, rfl⟩ := h
      rw [itemsOf_cons, if_pos rfl, itemsOf_eq_nil_of_not_mem rest k h0, List.append_nil]
    · have hkmem : k ∈ rest.map Prod.fst := List.mem_map.mpr ⟨(k, as), h, rfl⟩
      have hk : k0 ≠ k := fun he => h0 (he ▸ hkmem)
      rw [itemsOf_cons, if_neg hk, ih hr k as h, List.nil_append]

end Grouping

/-- Summing any entry-wise function over the insertion-ordered dictionary
equals summing it over the distinct keys with the in-order item lists. -/
theorem groupPairs_sum {κ α M : Type} [DecidableEq κ] [AddCommMonoid M]
    (F : κ → List α → M) (l : List (κ × α)) :
    ((groupPairs l).map (fun p => F p.1 p.2)).sum
      = (((l.map Prod.fst).dedup).map
          (fun k => F k ((l.filter (fun p => p.1 = k)).map Prod.snd))).sum := by
  have hnil : ((([] : List (κ × List α))).map Prod.fst).Nodup := by simp
  have hnd : ((groupPairs l).map Prod.fst).Nodup := foldl_insert_keys_nodup l [] hnil
  have hitems : ∀ k, itemsOf (groupPairs l) k
      = (l.filter (fun p => p.1 = k)).map Prod.snd := by
    intro k
    have := foldl_insert_itemsOf l [] hnil k
    simpa [groupPairs, itemsOf_nil] using this
  have h1 : (groupPairs l).map (fun p => F p.1 p.2)
      = (groupPairs l).map (fun p => F p.1 (itemsOf (groupPairs l) p.1)) := by
    apply List.map_congr_left
    intro p hp
    rw [itemsOf_of_mem (groupPairs l) hnd p.1 p.2 (by simpa using hp)]
  have hperm : ((groupPairs l).map Prod.fst).Perm ((l.map Prod.fst).dedup) := by
    rw [List.perm_ext_iff_of_nodup hnd (List.nodup_dedup _)]
    intro k
    rw [List.mem_dedup]
    have := foldl_insert_mem_keys l [] k
    simpa [groupPairs] using this
  calc ((groupPairs l).map (fun p => F p.1 p.2)).sum
      = (((groupPairs l).map Prod.fst).map
          (fun k => F k (itemsOf (groupPairs l) k))).sum := by
        rw [h1, List.map_map]; rfl
    _ = (((l.map Prod.fst).dedup).map
          (fun k => F k (itemsOf (groupPairs l) k))).sum :=
        (hperm.map _).sum_eq
    _ = (((l.map Prod.fst).dedup).map
          (fun k => F k ((l.filter (fun p => p.1 = k)).map Prod.snd))).sum := by
        apply congrArg
        apply List.map_congr_left
        intro k _
        rw [hitems k]

/-! ## C1: the code's dictionary-based evaluator equals the spec's
per-student / per-cell reference sums -/

theorem bumpCount_sum (w : Nat → ℚ) :
    ∀ (g : List (Nat × Nat)) (k : Nat),
      ((bumpCount g k).map (fun pc => w pc.1 * (pc.2 : ℚ))).sum
        = (g.map (fun pc => w pc.1 * (pc.2 : ℚ))).sum + w k
  | [], k => by simp [bumpCount]
  | (k', c) :: rest, k => by
    by_cases h : k' = k
    · subst h
      simp only [bumpCount, eq_self_iff_true, if_true, List.map_cons, List.sum_cons]
      push_cast
      ring
    · simp only [bumpCount, if_neg h, List.map_cons, List.sum_cons,
        bumpCount_sum w rest k]
      ring

theorem foldl_bump_sum (w : Nat → ℚ) {β : Type} (pr : β → Nat) :
    ∀ (l : List β) (g : List (Nat × Nat)),
      ((l.foldl (fun g x => bumpCount g (pr x)) g).map
          (fun pc => w pc.1 * (pc.2 : ℚ))).sum
        = (g.map (fun pc => w pc.1 * (pc.2 : ℚ))).sum
            + (l.map (fun x => w (pr x))).sum
  | [], g => by simp
  | x :: rest, g => by
    rw [List.foldl_cons, foldl_bump_sum w pr rest _, bumpCount_sum w g (pr x)]
    simp only [List.map_cons, List.sum_cons]
    ring

theorem meetingHourWeight_eq_spec (m : Allocation) :
    meetingHourWeight m = specMeetingWeight m := by
  unfold meetingHourWeight specMeetingWeight
  by_cases h : m.course_class.students = []
  · simp [h, priorityWeight]
  · rw [if_neg h, if_neg h]
    have := foldl_bump_sum (fun p => priorityWeight p)
      (fun st : Student => st.get_priority m.course_class.code)
      m.course_class.students []
    simpa using this

theorem filter_pairs_of_nodup (sid : String) (m : Allocation) :
    ∀ (sts : List Student), (sts.map Student.id).Nodup →
      (((sts.map (fun st => (st.id, m))).filter (fun p => p.1 = sid)).map Prod.snd)
        = if sts.any (fun st => st.id = sid) then [m] else []
  | [], _ => by simp
  | st :: rest, hnd => by
    rw [List.map_cons, List.nodup_cons] at hnd
    obtain ⟨h0, hr⟩ := hnd
    by_cases h : st.id = sid
    · have hrest : (rest.map (fun st2 => (st2.id, m))).filter
          (fun p => p.1 = sid) = [] := by
        rw [List.filter_eq_nil_iff]
        intro p hp
        obtain ⟨st2, hst2, rfl⟩ := List.mem_map.mp hp
        simp only [decide_eq_true_eq]
        intro hc
        exact h0 (h ▸ hc ▸ List.mem_map.mpr ⟨st2, hst2, rfl⟩)
      simp [List.filter_cons, h, hrest]
    · simp [List.filter_cons, h, filter_pairs_of_nodup sid m rest hr]

theorem flatMap_pairs_filter (sid : String) :
    ∀ (ms : List Allocation),
      (∀ m ∈ ms, ((m.course_class.students.map Student.id).Nodup)) →
      (((ms.flatMap (fun m => m.course_class.students.map
            (fun st => (st.id, m)))).filter (fun p => p.1 = sid)).map Prod.snd)
        = ms.filter (fun m => m.course_class.students.any (fun st => st.id = sid))
  | [], _ => by simp
  | m :: rest, h => by
    rw [List.flatMap_cons, List.filter_append, List.map_append,
        filter_pairs_of_nodup sid m _ (h m (by simp)),
        flatMap_pairs_filter sid rest (fun m2 hm2 => h m2 (by simp [hm2]))]
    by_cases hany : m.course_class.students.any (fun st => st.id = sid)
    · simp [List.filter_cons, hany]
    · simp [List.filter_cons, hany]

theorem studentPairs_keys (s : State) :
    (studentPairs s).map Prod.fst
      = s.meetings.flatMap (fun m => m.course_class.students.map
          (fun st => st.id)) := by
  unfold studentPairs
  rw [List.map_flatMap]
  congr 1
  funext m
  rw [List.map_map]
  apply List.map_congr_left
  intro st _
  rfl

theorem time_conflict_eq_spec (s : State)
    (h : ∀ m ∈ s.meetings, ((m.course_class.students.map Student.id).Nodup)) :
    calculate_time_conflict_penalty s = specTimeConflict s := by
  unfold calculate_time_conflict_penalty specTimeConflict student_meetings
  rw [groupPairs_sum (M := ℤ) (fun _ as => pairConflicts as) (studentPairs s)]
  congr 1
  unfold specStudentIds
  rw [← studentPairs_keys s]
  apply congrArg
  apply List.map_congr_left
  intro sid _
  unfold specMeetingsOf
  have := flatMap_pairs_filter sid s.meetings h
  unfold studentPairs
  rw [this]

theorem room_conflict_eq_spec (s : State) :
    calculate_room_conflict_penalty s = specRoomConflict s := by
  unfold calculate_room_conflict_penalty specRoomConflict room_time_meetings
  rw [groupPairs_sum
    (fun _ ms => if 1 < ms.length then (ms.map meetingHourWeight).sum else 0)
    (cellPairs s)]
  unfold specCells specCellMeetings
  apply congrArg
  apply List.map_congr_left
  intro c _
  rw [funext meetingHourWeight_eq_spec]

theorem capacity_eq_spec (s : State) :
    calculate_capacity_penalty s = specCapacity s := by
  unfold calculate_capacity_penalty specCapacity
  apply congrArg
  apply List.map_congr_left
  intro m _
  by_cases h : m.room.capacity < m.course_class.studentCount
  · rw [if_pos h, if_pos h]
    push_cast
    ring
  · rw [if_neg h, if_neg h]

/-- **C1**: with all three terms enabled, `ObjectiveFunction.calculate`
returns exactly the sum of the spec's three reference terms: per-student
pairwise same-day overlap hours, per-overfull-cell weighted headcount
(with the aggregate-`studentCount` priority-1 fallback), and per-meeting
capacity overflow times duration.  The hypothesis states that no class
lists the same student id twice (catalog well-formedness, spec §7). -/
theorem c1_objective_matches_reference (s : State)
    (h : ∀ m ∈ s.meetings, ((m.course_class.students.map Student.id).Nodup)) :
    ObjectiveFunction.calculate ⟨true, true, true⟩ s
      = specTimeConflict s + specRoomConflict s + specCapacity s := by
  unfold ObjectiveFunction.calculate
  simp only [if_true]
  rw [time_conflict_eq_spec s h, room_conflict_eq_spec s, capacity_eq_spec s]

/-! ## C8: non-negativity, empty schedule, permutation invariance -/

theorem overlapAmount_comm (m1 m2 : Allocation) :
    overlapAmount m1 m2 = overlapAmount m2 m1 := by
  unfold overlapAmount
  by_cases h : m1.time_slot.day = m2.time_slot.day
  · simp only [if_pos h, if_pos h.symm]
    rw [max_comm, min_comm]
  · simp only [if_neg h, if_neg (fun he : m2.time_slot.day = m1.time_slot.day => h he.symm)]

theorem overlapAmount_nonneg (m1 m2 : Allocation) : 0 ≤ overlapAmount m1 m2 := by
  by_cases h : m1.time_slot.day = m2.time_slot.day
  · simp only [overlapAmount, if_pos h]
    by_cases h2 : max m1.time_slot.start_hour m2.time_slot.start_hour
        < min m1.time_slot.end_hour m2.time_slot.end_hour
    · rw [if_pos h2]; linarith
    · rw [if_neg h2]
  · simp only [overlapAmount, if_neg h]
    exact le_refl 0

theorem pairConflicts_nonneg : ∀ l : List Allocation, 0 ≤ pairConflicts l
  | [] => le_refl 0
  | m :: rest => by
    unfold pairConflicts
    have h1 : (0 : ℤ) ≤ (rest.map (fun m2 => overlapAmount m m2)).sum := by
      apply List.sum_nonneg
      intro x hx
      obtain ⟨m2, _, rfl⟩ := List.mem_map.mp hx
      exact overlapAmount_nonneg m m2
    have h2 := pairConflicts_nonneg rest
    linarith

theorem pairConflicts_perm {l1 l2 : List Allocation} (hp : l1.Perm l2) :
    pairConflicts l1 = pairConflicts l2 := by
  induction hp with
  | nil => rfl
  | cons x p ih =>
    unfold pairConflicts
    rw [ih, (p.map (fun m2 => overlapAmount x m2)).sum_eq]
  | swap x y l =>
    unfold pairConflicts
    unfold pairConflicts
    simp only [List.map_cons, List.sum_cons]
    rw [overlapAmount_comm x y]
    ring
  | trans _ _ ih1 ih2 => exact ih1.trans ih2

theorem priorityWeight_nonneg (p : Nat) : 0 ≤ priorityWeight p := by
  unfold priorityWeight
  split
  · norm_num
  · split
    · norm_num
    · split <;> norm_num

theorem meetingHourWeight_nonneg (m : Allocation)
    (h : 0 ≤ m.course_class.studentCount) : 0 ≤ meetingHourWeight m := by
  rw [meetingHourWeight_eq_spec]
  unfold specMeetingWeight
  split
  · have : (0 : ℚ) ≤ (m.course_class.studentCount : ℚ) := by exact_mod_cast h
    linarith
  · apply List.sum_nonneg
    intro x hx
    obtain ⟨st, _, rfl⟩ := List.mem_map.mp hx
    exact priorityWeight_nonneg _

theorem cellPairs_snd_mem {s : State} {p : CellKey × Allocation}
    (hp : p ∈ cellPairs s) : p.2 ∈ s.meetings := by
  unfold cellPairs at hp
  obtain ⟨m, hm, hmem⟩ := List.mem_flatMap.mp hp
  obtain ⟨h0, _, rfl⟩ := List.mem_map.mp hmem
  exact hm

theorem time_conflict_nonneg (s : State) : 0 ≤ calculate_time_conflict_penalty s := by
  unfold calculate_time_conflict_penalty
  have : (0 : ℤ) ≤ ((student_meetings s).map (fun p => pairConflicts p.2)).sum := by
    apply List.sum_nonneg
    intro x hx
    obtain ⟨p, _, rfl⟩ := List.mem_map.mp hx
    exact pairConflicts_nonneg p.2
  exact_mod_cast this

theorem room_conflict_nonneg (s : State)
    (h : ∀ m ∈ s.meetings, 0 ≤ m.course_class.studentCount) :
    0 ≤ calculate_room_conflict_penalty s := by
  unfold calculate_room_conflict_penalty room_time_meetings
  rw [groupPairs_sum
    (fun _ ms => if 1 < ms.length then (ms.map meetingHourWeight).sum else 0)
    (cellPairs s)]
  apply List.sum_nonneg
  intro x hx
  obtain ⟨c, _, rfl⟩ := List.mem_map.mp hx
  split
  · apply List.sum_nonneg
    intro y hy
    obtain ⟨m, hm, rfl⟩ := List.mem_map.mp hy
    obtain ⟨q, hq, rfl⟩ := List.mem_map.mp hm
    exact meetingHourWeight_nonneg _ (h _ (cellPairs_snd_mem (List.mem_filter.mp hq).1))
  · exact le_refl 0

theorem capacity_nonneg (s : State)
    (h : ∀ m ∈ s.meetings, m.time_slot.start_hour ≤ m.time_slot.end_hour) :
    0 ≤ calculate_capacity_penalty s := by
  unfold calculate_capacity_penalty
  apply List.sum_nonneg
  intro x hx
  obtain ⟨m, hm, rfl⟩ := List.mem_map.mp hx
  split
  · next hlt =>
    have h1 : (0 : ℤ) ≤ m.course_class.studentCount - m.room.capacity := by linarith
    have h2 : (0 : ℤ) ≤ m.time_slot.duration := by
      have := h m hm
      unfold TimeSlot.duration
      linarith
    have : (0 : ℤ) ≤ (m.course_class.studentCount - m.room.capacity) * m.time_slot.duration :=
      mul_nonneg h1 h2
    exact_mod_cast this
  · exact le_refl 0

theorem time_conflict_perm (s s' : State) (hp : s.meetings.Perm s'.meetings) :
    calculate_time_conflict_penalty s = calculate_time_conflict_penalty s' := by
  have hSP : (studentPairs s).Perm (studentPairs s') := hp.flatMap_right _
  unfold calculate_time_conflict_penalty student_meetings
  rw [groupPairs_sum (M := ℤ) (fun _ as => pairConflicts as) (studentPairs s),
      groupPairs_sum (M := ℤ) (fun _ as => pairConflicts as) (studentPairs s')]
  congr 1
  have hkeys : (((studentPairs s).map Prod.fst).dedup).Perm
      (((studentPairs s').map Prod.fst).dedup) := (hSP.map _).dedup
  calc (((studentPairs s).map Prod.fst).dedup.map
          (fun k => pairConflicts (((studentPairs s).filter
            (fun p => p.1 = k)).map Prod.snd))).sum
      = (((studentPairs s).map Prod.fst).dedup.map
          (fun k => pairConflicts (((studentPairs s').filter
            (fun p => p.1 = k)).map Prod.snd))).sum := by
        apply congrArg
        apply List.map_congr_left
        intro k _
        exact pairConflicts_perm ((hSP.filter _).map _)
    _ = (((studentPairs s').map Prod.fst).dedup.map
          (fun k => pairConflicts (((studentPairs s').filter
            (fun p => p.1 = k)).map Prod.snd))).sum :=
        (hkeys.map _).sum_eq

theorem room_conflict_perm (s s' : State) (hp : s.meetings.Perm s'.meetings) :
    calculate_room_conflict_penalty s = calculate_room_conflict_penalty s' := by
  have hCP : (cellPairs s).Perm (cellPairs s') := hp.flatMap_right _
  unfold calculate_room_conflict_penalty room_time_meetings
  rw [groupPairs_sum
        (fun _ ms => if 1 < ms.length then (ms.map meetingHourWeight).sum else 0)
        (cellPairs s),
      groupPairs_sum
        (fun _ ms => if 1 < ms.length then (ms.map meetingHourWeight).sum else 0)
        (cellPairs s')]
  have hkeys : (((cellPairs s).map Prod.fst).dedup).Perm
      (((cellPairs s').map Prod.fst).dedup) := (hCP.map _).dedup
  calc (((cellPairs s).map Prod.fst).dedup.map
          (fun k =>
            if 1 < (((cellPairs s).filter (fun p => p.1 = k)).map Prod.snd).length
            then ((((cellPairs s).filter (fun p => p.1 = k)).map Prod.snd).map
                meetingHourWeight).sum
            else 0)).sum
      = (((cellPairs s).map Prod.fst).dedup.map
          (fun k =>
            if 1 < (((cellPairs s').filter (fun p => p.1 = k)).map Prod.snd).length
            then ((((cellPairs s').filter (fun p => p.1 = k)).map Prod.snd).map
                meetingHourWeight).sum
            else 0)).sum := by
        apply congrArg
        apply List.map_congr_left
        intro k _
        have hfp : ((((cellPairs s).filter (fun p => p.1 = k)).map Prod.snd)).Perm
            ((((cellPairs s').filter (fun p => p.1 = k)).map Prod.snd)) :=
          (hCP.filter _).map _
        rw [hfp.length_eq, (hfp.map meetingHourWeight).sum_eq]
    _ = (((cellPairs s').map Prod.fst).dedup.map
          (fun k =>
            if 1 < (((cellPairs s').filter (fun p => p.1 = k)).map Prod.snd).length
            then ((((cellPairs s').filter (fun p => p.1 = k)).map Prod.snd).map
                meetingHourWeight).sum
            else 0)).sum :=
        (hkeys.map _).sum_eq

theorem capacity_perm (s s' : State) (hp : s.meetings.Perm s'.meetings) :
    calculate_capacity_penalty s = calculate_capacity_penalty s' := by
  unfold calculate_capacity_penalty
  exact (hp.map _).sum_eq

theorem calculate_empty (f : ObjectiveFunction) :
    f.calculate ⟨[]⟩ = 0 := by
  have h1 : calculate_time_conflict_penalty ⟨[]⟩ = 0 := rfl
  have h2 : calculate_room_conflict_penalty ⟨[]⟩ = 0 := rfl
  have h3 : calculate_capacity_penalty ⟨[]⟩ = 0 := rfl
  unfold ObjectiveFunction.calculate
  rw [h1, h2, h3]
  simp

/-- **C8**: penalty is non-negative (for schedules whose meetings satisfy
the data-model invariants `start ≤ end` and `studentCount ≥ 0`), the
penalty of the empty schedule is exactly 0, and penalty is invariant
under any permutation of the meeting list — for every configuration of
the three term toggles. -/
theorem c8_penalty_properties (f : ObjectiveFunction) (s s' : State)
    (hslots : ∀ m ∈ s.meetings, m.time_slot.start_hour ≤ m.time_slot.end_hour)
    (hcounts : ∀ m ∈ s.meetings, 0 ≤ m.course_class.studentCount) :
    0 ≤ f.calculate s ∧ f.calculate ⟨[]⟩ = 0 ∧
      (s.meetings.Perm s'.meetings → f.calculate s = f.calculate s') := by
  refine ⟨?_, calculate_empty f, ?_⟩
  · unfold ObjectiveFunction.calculate
    have t1 : (0:ℚ) ≤ if f.student_conflict then calculate_time_conflict_penalty s else 0 := by
      split
      · exact time_conflict_nonneg s
      · exact le_refl 0
    have t2 : (0:ℚ) ≤ if f.room_conflict then calculate_room_conflict_penalty s else 0 := by
      split
      · exact room_conflict_nonneg s hcounts
      · exact le_refl 0
    have t3 : (0:ℚ) ≤ if f.capacity then calculate_capacity_penalty s else 0 := by
      split
      · exact capacity_nonneg s hslots
      · exact le_refl 0
    linarith
  · intro hp
    unfold ObjectiveFunction.calculate
    rw [time_conflict_perm s s' hp, room_conflict_perm s s' hp, capacity_perm s s' hp]

/-! ## Concrete fixtures used by witnesses -/

def stAlice : Student := ⟨"alice", ["A", "B"]⟩

def clsA : CourseClass := ⟨"A", 10, 2, [stAlice]⟩

def clsB : CourseClass := ⟨"B", 5, 1, [stAlice]⟩

def roomR : Room := ⟨"R", 8⟩

def wState : State := ⟨[⟨clsA, ⟨0, 9, 11⟩, roomR⟩, ⟨clsB, ⟨0, 10, 11⟩, roomR⟩]⟩

def wStateRev : State := ⟨[⟨clsB, ⟨0, 10, 11⟩, roomR⟩, ⟨clsA, ⟨0, 9, 11⟩, roomR⟩]⟩

/-- Witness for C1 at a concrete two-meeting schedule. -/
theorem c1_objective_matches_reference_witness :
    ObjectiveFunction.calculate ⟨true, true, true⟩ wState
      = specTimeConflict wState + specRoomConflict wState + specCapacity wState :=
  c1_objective_matches_reference wState (by decide)

/-- Witness for C8 at a concrete schedule and its reversal. -/
theorem c8_penalty_properties_witness :
    0 ≤ ObjectiveFunction.calculate ⟨true, true, true⟩ wState ∧
      ObjectiveFunction.calculate ⟨true, true, true⟩ ⟨[]⟩ = 0 ∧
      ObjectiveFunction.calculate ⟨true, true, true⟩ wState
        = ObjectiveFunction.calculate ⟨true, true, true⟩ wStateRev :=
  ⟨(c8_penalty_properties ⟨true, true, true⟩ wState wStateRev
      (by decide) (by decide)).1,
   (c8_penalty_properties ⟨true, true, true⟩ wState wStateRev
      (by decide) (by decide)).2.1,
   (c8_penalty_properties ⟨true, true, true⟩ wState wStateRev
      (by decide) (by decide)).2.2 (by decide)⟩

/-! ## The random oracle (`random` module) -/

/-- A deterministic oracle standing for Python's `random` module; every
actual execution trace corresponds to some `Rng`.  `int t a b` is the
value of the `t`-th oracle call when it is `random.randint(a, b)`;
`idx t` the index drawn by `random.choice`; `pair t` the two indices of
`random.sample(range(n), 2)`; `unit t` the (dyadic rational) float of
`random.random()`; `shuffle t l` the iteration order of a Python `set`
built from the elements of `l`. -/
structure Rng where
  int : Nat → Int → Int → Int
  idx : Nat → Nat
  pair : Nat → Nat × Nat
  unit : Nat → ℚ
  shuffle : Nat → List String → List String

/-- Contract of `random.randint`: for `a ≤ b` the draw lies in `[a, b]`. -/
def Rng.IntOk (r : Rng) : Prop :=
  ∀ t a b, a ≤ b → a ≤ r.int t a b ∧ r.int t a b ≤ b

/-- Contract of `set` iteration: some ordering of the same elements. -/
def Rng.ShuffleOk (r : Rng) : Prop :=
  ∀ t l, (r.shuffle t l).Perm l

/-! ## `State.random_fill` and `State.get_random_neighbor`
(`src/main/state.py`) -/

/-- The inner `while hours_to_allocate > 0` loop of `State.random_fill`
for one class: draw day in [0,4], start in [7,17], duration in
`[1, min(3, hours, 18 - start)]` and a room, append the meeting, loop on
the remaining hours.  `fuel` bounds the iteration count; under
`Rng.IntOk` every iteration allocates ≥ 1 hour, so `credits.toNat`
suffices and the fuel case is never the reason the loop stops. -/
def allocLoop (r : Rng) (cls : CourseClass) (room_list : List Room) :
    Nat → Nat → Int → List Allocation × Nat
  | 0, t, _ => ([], t)
  | fuel + 1, t, hours =>
    if 0 < hours then
      let day := r.int t 0 4
      let start_hour := r.int (t + 1) 7 17
      let duration := r.int (t + 2) 1 (min 3 (min hours (18 - start_hour)))
      let end_hour := start_hour + duration
      let room := room_list.getD (r.idx (t + 3) % room_list.length) dummyRoom
      let rest := allocLoop r cls room_list fuel (t + 4) (hours - duration)
      (⟨cls, ⟨day, start_hour, end_hour⟩, room⟩ :: rest.1, rest.2)
    else ([], t)

/-- The `for cls in classes.values()` loop of `State.random_fill`,
threading the meeting list and the oracle counter. -/
def fillFold (r : Rng) (rooms : List Room) (classes : List CourseClass)
    (acc : List Allocation × Nat) : List Allocation × Nat :=
  classes.foldl
    (fun acc cls =>
      let block := allocLoop r cls rooms cls.credits.toNat acc.2 cls.credits
      (acc.1 ++ block.1, block.2))
    acc

/-- `State.random_fill(classes, rooms)`.  Returns the filled state and
the next oracle counter. -/
def State.random_fill (r : Rng) (t : Nat) (classes : List CourseClass)
    (rooms : List Room) : State × Nat :=
  let res := fillFold r rooms classes ([], t)
  (⟨res.1⟩, res.2)

/-- `State.get_random_neighbor(rooms)`: `None` iff the schedule is
empty; otherwise the meeting list is deep-copied (value semantics) and
either SWAP (when the coin picks it and `n ≥ 2`) exchanges the
(time slot, room) pairs of two sampled meetings, or MOVE redraws one
meeting's day, start hour and room with
`end_hour = min(start_hour + duration, 18)`. -/
def State.get_random_neighbor (r : Rng) (t : Nat) (s : State)
    (rooms : List Room) : Option (State × Nat) :=
  if s.meetings = [] then none
  else
    let ms := s.meetings
    let n := ms.length
    let op := r.idx t % 2
    if op = 0 ∧ 2 ≤ n then
      let idx1 := (r.pair (t + 1)).1 % n
      let idx2 := (r.pair (t + 1)).2 % n
      let m1 := ms.getD idx1 dummyAllocation
      let m2 := ms.getD idx2 dummyAllocation
      let ms1 := ms.set idx1 ⟨m1.course_class, m2.time_slot, m2.room⟩
      let ms2 := ms1.set idx2 ⟨m2.course_class, m1.time_slot, m1.room⟩
      some (⟨ms2⟩, t + 2)
    else
      let i := (r.int (t + 1) 0 ((n : Int) - 1)).toNat
      let m := ms.getD i dummyAllocation
      let day := r.int (t + 2) 0 4
      let start_hour := r.int (t + 3) 7 17
      let duration := m.time_slot.duration
      let end_hour := min (start_hour + duration) 18
      let room := rooms.getD (r.idx (t + 4) % rooms.length) dummyRoom
      some (⟨ms.set i ⟨m.course_class, ⟨day, start_hour, end_hour⟩, room⟩⟩, t + 5)

def rngHi : Rng :=
  ⟨fun _ _ b => b, fun _ => 1, fun _ => (0, 1), fun _ => 0, fun _ l => l⟩

def c2State : State := ⟨[⟨clsA, ⟨0, 9, 11⟩, roomR⟩]⟩

/-- **C2** (code bug): a MOVE drawn with `start_hour = 17` on a
duration-2 meeting produces a slot `(17, 18)` of duration 1 — the clamp
`end_hour = min(start_hour + duration, 18)` shrinks the duration,
contradicting the code's own comment "Generate new time slot with same
duration" (and the way `GeneticAlgorithm.mutate` redraws starts in
`[7, 18 - duration]`).  The oracle draws are all legal `randint`
outputs, so this trace occurs with positive probability. -/
theorem c2_move_shrinks_duration :
    (State.get_random_neighbor rngHi 0 c2State [roomR]).map
        (fun p => p.1.meetings.map (fun m => m.time_slot.duration))
      = some [1]
    ∧ c2State.meetings.map (fun m => m.time_slot.duration) = [2] := by
  constructor <;> decide

/-! ## C5: randomized fill allocates each class's credits exactly -/

theorem allocLoop_spec (r : Rng) (hr : Rng.IntOk r) (cls : CourseClass)
    (room_list : List Room) :
    ∀ (fuel t : Nat) (hours : Int), hours.toNat ≤ fuel →
      (((allocLoop r cls room_list fuel t hours).1.map
          (fun m => m.time_slot.duration)).sum = max hours 0)
      ∧ (∀ m ∈ (allocLoop r cls room_list fuel t hours).1,
          m.course_class = cls
          ∧ 7 ≤ m.time_slot.start_hour ∧ m.time_slot.start_hour ≤ 17
          ∧ 1 ≤ m.time_slot.duration ∧ m.time_slot.end_hour ≤ 18)
  | 0, t, hours, hf => by
    have h0 : hours ≤ 0 := by omega
    constructor
    · simp [allocLoop]
      omega
    · intro m hm
      simp [allocLoop] at hm
  | fuel + 1, t, hours, hf => by
    by_cases h : 0 < hours
    · have hs := hr (t + 1) 7 17 (by norm_num)
      have hdb : (1 : Int) ≤ min 3 (min hours (18 - r.int (t + 1) 7 17)) := by
        refine le_min (by norm_num) (le_min (by omega) (by omega))
      have hd := hr (t + 2) 1 _ hdb
      have hd1 : 1 ≤ r.int (t + 2) 1 (min 3 (min hours (18 - r.int (t + 1) 7 17))) := hd.1
      have hdh : r.int (t + 2) 1 (min 3 (min hours (18 - r.int (t + 1) 7 17))) ≤ hours :=
        le_trans hd.2 (le_trans (min_le_right _ _) (min_le_left _ _))
      have hde : r.int (t + 2) 1 (min 3 (min hours (18 - r.int (t + 1) 7 17)))
          ≤ 18 - r.int (t + 1) 7 17 :=
        le_trans hd.2 (le_trans (min_le_right _ _) (min_le_right _ _))
      have ih := allocLoop_spec r hr cls room_list fuel (t + 4)
        (hours - r.int (t + 2) 1 (min 3 (min hours (18 - r.int (t + 1) 7 17))))
        (by omega)
      simp only [allocLoop, if_pos h]
      constructor
      · rw [List.map_cons, List.sum_cons, ih.1]
        have hmax1 : max (hours - r.int (t + 2) 1
            (min 3 (min hours (18 - r.int (t + 1) 7 17)))) 0
            = hours - r.int (t + 2) 1 (min 3 (min hours (18 - r.int (t + 1) 7 17))) :=
          max_eq_left (by omega)
        have hmax2 : max hours 0 = hours := max_eq_left (by omega)
        rw [hmax1, hmax2]
        unfold TimeSlot.duration
        dsimp only
        omega
      · intro m hm
        rcases List.mem_cons.mp hm with hm | hm
        · subst hm
          refine ⟨rfl, hs.1, hs.2, ?_, ?_⟩
          · unfold TimeSlot.duration
            dsimp only
            omega
          · dsimp only
            omega
        · exact ih.2 m hm
    · constructor
      · simp [allocLoop, if_neg h]
        omega
      · intro m hm
        simp [allocLoop, if_neg h] at hm

theorem fillFold_cons (r : Rng) (rooms : List Room) (c0 : CourseClass)
    (rest : List CourseClass) (acc : List Allocation × Nat) :
    fillFold r rooms (c0 :: rest) acc
      = fillFold r rooms rest
          (acc.1 ++ (allocLoop r c0 rooms c0.credits.toNat acc.2 c0.credits).1,
           (allocLoop r c0 rooms c0.credits.toNat acc.2 c0.credits).2) := rfl

theorem fillFold_spec (r : Rng) (hr : Rng.IntOk r) (rooms : List Room) :
    ∀ (classes : List CourseClass) (acc : List Allocation × Nat),
      ∃ tail : List Allocation,
        (fillFold r rooms classes acc).1 = acc.1 ++ tail
        ∧ (∀ m ∈ tail, m.course_class ∈ classes
            ∧ 7 ≤ m.time_slot.start_hour ∧ m.time_slot.start_hour ≤ 17
            ∧ 1 ≤ m.time_slot.duration ∧ m.time_slot.end_hour ≤ 18)
        ∧ ((classes.map CourseClass.code).Nodup →
            ∀ c ∈ classes, 0 < c.credits →
              ((tail.filter (fun m => m.course_class.code = c.code)).map
                (fun m => m.time_slot.duration)).sum = c.credits)
  | [], acc => ⟨[], by simp [fillFold], by simp, by simp⟩
  | c0 :: rest, acc => by
    have hblock := allocLoop_spec r hr c0 rooms c0.credits.toNat acc.2 c0.credits
      (le_refl _)
    obtain ⟨tail', h1, h2, h3⟩ := fillFold_spec r hr rooms rest
      (acc.1 ++ (allocLoop r c0 rooms c0.credits.toNat acc.2 c0.credits).1,
       (allocLoop r c0 rooms c0.credits.toNat acc.2 c0.credits).2)
    refine ⟨(allocLoop r c0 rooms c0.credits.toNat acc.2 c0.credits).1 ++ tail',
      ?_, ?_, ?_⟩
    · rw [fillFold_cons, h1, List.append_assoc]
    · intro m hm
      rcases List.mem_append.mp hm with hm | hm
      · obtain ⟨hc, hrest⟩ := hblock.2 m hm
        exact ⟨by rw [hc]; exact List.mem_cons_self c0 rest, hrest⟩
      · obtain ⟨hc, hrest⟩ := h2 m hm
        exact ⟨List.mem_cons_of_mem c0 hc, hrest⟩
    · intro hnd c hc hcred
      rw [List.map_cons, List.nodup_cons] at hnd
      obtain ⟨hn0, hnr⟩ := hnd
      rw [List.filter_append, List.map_append, List.sum_append]
      rcases List.mem_cons.mp hc with hc | hc
      · subst hc
        have hfb : (allocLoop r c rooms c.credits.toNat acc.2 c.credits).1.filter
            (fun m => m.course_class.code = c.code)
            = (allocLoop r c rooms c.credits.toNat acc.2 c.credits).1 := by
          apply List.filter_eq_self.mpr
          intro m hm
          rw [(hblock.2 m hm).1]
          simp
        have hft : tail'.filter (fun m => m.course_class.code = c.code) = [] := by
          rw [List.filter_eq_nil_iff]
          intro m hm
          have hcm : m.course_class ∈ rest := (h2 m hm).1
          have : m.course_class.code ∈ rest.map CourseClass.code :=
            List.mem_map.mpr ⟨m.course_class, hcm, rfl⟩
          simp only [decide_eq_true_eq]
          intro he
          exact hn0 (he ▸ this)
        rw [hfb, hft, hblock.1]
        simp only [List.map_nil, List.sum_nil, add_zero]
        omega
      · have hfb : (allocLoop r c0 rooms c0.credits.toNat acc.2 c0.credits).1.filter
            (fun m => m.course_class.code = c.code) = [] := by
          rw [List.filter_eq_nil_iff]
          intro m hm
          rw [(hblock.2 m hm).1]
          have : c.code ∈ rest.map CourseClass.code :=
            List.mem_map.mpr ⟨c, hc, rfl⟩
          simp only [decide_eq_true_eq]
          intro he
          exact hn0 (he ▸ this)
        rw [hfb]
        simp only [List.map_nil, List.sum_nil, zero_add]
        exact h3 hnr c hc hcred

/-- **C5**: for every class catalog with positive credits, non-empty
room catalog and any `randint`-conforming oracle, `State.random_fill`
produces, per class code, meetings whose durations sum to exactly that
class's credits, and every produced time slot has
`start ∈ [7,17]`, `end ∈ [8,18]`, `duration ≥ 1`. -/
theorem c5_random_fill_exact (r : Rng) (t : Nat) (classes : List CourseClass)
    (rooms : List Room) (hr : Rng.IntOk r)
    (hcred : ∀ c ∈ classes, 0 < c.credits)
    (hcodes : (classes.map CourseClass.code).Nodup)
    (hrooms : rooms ≠ []) :
    (∀ c ∈ classes,
      (((State.random_fill r t classes rooms).1.meetings.filter
          (fun m => m.course_class.code = c.code)).map
        (fun m => m.time_slot.duration)).sum = c.credits)
    ∧ (∀ m ∈ (State.random_fill r t classes rooms).1.meetings,
        7 ≤ m.time_slot.start_hour ∧ m.time_slot.start_hour ≤ 17
        ∧ 8 ≤ m.time_slot.end_hour ∧ m.time_slot.end_hour ≤ 18
        ∧ 1 ≤ m.time_slot.duration) := by
  obtain ⟨tail, h1, h2, h3⟩ := fillFold_spec r hr rooms classes ([], t)
  have hm : (State.random_fill r t classes rooms).1.meetings = tail := by
    unfold State.random_fill
    dsimp only
    rw [h1]
    simp
  constructor
  · intro c hc
    rw [hm]
    exact h3 hcodes c hc (hcred c hc)
  · intro m hmm
    rw [hm] at hmm
    obtain ⟨_, hs1, hs2, hd1, he⟩ := h2 m hmm
    unfold TimeSlot.duration at hd1
    refine ⟨hs1, hs2, by omega, he, by unfold TimeSlot.duration; omega⟩

def rngLo : Rng :=
  ⟨fun _ a _ => a, fun _ => 0, fun _ => (0, 1), fun _ => 0, fun _ l => l⟩

theorem rngLo_IntOk : Rng.IntOk rngLo := fun _ a _ h => ⟨le_refl a, h⟩

/-- Witness for C5 at a concrete two-class catalog and oracle. -/
theorem c5_random_fill_exact_witness :
    (∀ c ∈ [clsA, clsB],
      (((State.random_fill rngLo 0 [clsA, clsB] [roomR]).1.meetings.filter
          (fun m => m.course_class.code = c.code)).map
        (fun m => m.time_slot.duration)).sum = c.credits)
    ∧ (∀ m ∈ (State.random_fill rngLo 0 [clsA, clsB] [roomR]).1.meetings,
        7 ≤ m.time_slot.start_hour ∧ m.time_slot.start_hour ≤ 17
        ∧ 8 ≤ m.time_slot.end_hour ∧ m.time_slot.end_hour ≤ 18
        ∧ 1 ≤ m.time_slot.duration) :=
  c5_random_fill_exact rngLo 0 [clsA, clsB] [roomR] rngLo_IntOk
    (by decide) (by decide) (by decide)

/-! ## `State.get_all_neighbors` (`src/main/state.py`) -/

/-- The `slots_by_duration` table of `get_all_neighbors`: for durations
1..10, every (day, start) with `start ∈ range(7, min(18, 18 - duration + 1))`;
`dict.get(duration, [])` yields `[]` for any other duration. -/
def slotsForDuration (duration : Int) : List TimeSlot :=
  if 1 ≤ duration ∧ duration ≤ 10 then
    (List.range 5).flatMap (fun day =>
      (List.range (min 18 (18 - duration + 1) - 7).toNat).map (fun i =>
        ⟨(day : Int), 7 + (i : Int), 7 + (i : Int) + duration⟩))
  else []

/-- Move neighbors: every meeting against every same-duration slot and
every room, skipping its current (room, day, start) placement. -/
def moveNeighbors (s : State) (room_list : List Room) : List State :=
  (List.range s.meetings.length).flatMap (fun i =>
    let meeting := s.meetings.getD i dummyAllocation
    (slotsForDuration meeting.time_slot.duration).flatMap (fun new_slot =>
      (room_list.filter (fun room => ¬ (room = meeting.room
          ∧ meeting.time_slot.day = new_slot.day
          ∧ meeting.time_slot.start_hour = new_slot.start_hour))).map (fun room =>
        ⟨s.meetings.set i ⟨meeting.course_class, new_slot, room⟩⟩)))

/-- Swap neighbors: every pair `i < j` with their (time slot, room)
pairs exchanged, skipping identical placements. -/
def swapNeighbors (s : State) : List State :=
  (List.range s.meetings.length).flatMap (fun i =>
    ((List.range s.meetings.length).filter (fun j => i < j)).flatMap (fun j =>
      let mi := s.meetings.getD i dummyAllocation
      let mj := s.meetings.getD j dummyAllocation
      if mi.time_slot.day = mj.time_slot.day
          ∧ mi.time_slot.start_hour = mj.time_slot.start_hour
          ∧ mi.time_slot.end_hour = mj.time_slot.end_hour
          ∧ mi.room = mj.room then []
      else
        [⟨(s.meetings.set i ⟨mi.course_class, mj.time_slot, mj.room⟩).set j
            ⟨mj.course_class, mi.time_slot, mi.room⟩⟩]))

/-- `State.get_all_neighbors(rooms)`: all move neighbors followed by all
swap neighbors. -/
def State.get_all_neighbors (s : State) (rooms : List Room) : List State :=
  moveNeighbors s rooms ++ swapNeighbors s

/-! ## `HillClimbing` (`src/algorithms/hill_climb.py`)

The class fields (`objective_function`, `rooms`, `classes`) are passed
explicitly; `AlgorithmOutputFormatter` calls are printing only and
`time.time()` durations are omitted. -/

/-- The `for i in range(max_iterations)` loop of
`HillClimbing._stochastic_hc` (fuel = remaining iterations).  On the
zero-penalty break the final history append is skipped, exactly as the
Python `break` skips line 184. -/
def stochasticGo (obj : ObjectiveFunction) (rooms : List Room) (r : Rng) :
    Nat → Nat → State → ℚ → State → ℚ → List ℚ → State × List ℚ × Nat
  | 0, t, _, _, best, _, hist => (best, hist, t)
  | fuel + 1, t, cur, curV, best, bestV, hist =>
    match State.get_random_neighbor r t cur rooms with
    | none => stochasticGo obj rooms r fuel t cur curV best bestV (hist ++ [bestV])
    | some (nb, t') =>
      let nv := obj.calculate nb
      if nv < curV then
        if nv < bestV then
          if nv = 0 then (nb, hist, t')
          else stochasticGo obj rooms r fuel t' nb nv nb nv (hist ++ [nv])
        else stochasticGo obj rooms r fuel t' nb nv best bestV (hist ++ [bestV])
      else stochasticGo obj rooms r fuel t' cur curV best bestV (hist ++ [bestV])

/-- `HillClimbing._stochastic_hc`. -/
def stochastic_hc (obj : ObjectiveFunction) (rooms : List Room) (r : Rng)
    (t : Nat) (initial_state : State) (max_iterations : Nat) :
    State × List ℚ × Nat :=
  let curV := obj.calculate initial_state
  stochasticGo obj rooms r max_iterations t initial_state curV initial_state curV [curV]

/-- The best-neighbor fold of `_steepest_ascent_hc`; the
`float("inf")` start is the `none` state (the first neighbor always
replaces it). -/
def bestNeighbor (obj : ObjectiveFunction) (neighbors : List State) :
    Option (State × ℚ) :=
  neighbors.foldl (fun acc nb =>
    let v := obj.calculate nb
    match acc with
    | none => some (nb, v)
    | some (b, bv) => if v < bv then some (nb, v) else some (b, bv))
    none

/-- The loop of `HillClimbing._steepest_ascent_hc`: accept the best
neighbor only on strict improvement, otherwise halt at a local optimum;
break immediately (skipping the history append) when an improvement
reaches penalty 0. -/
def steepestGo (obj : ObjectiveFunction) (rooms : List Room) :
    Nat → State → ℚ → State → ℚ → List ℚ → State × List ℚ
  | 0, _, _, best, _, hist => (best, hist)
  | fuel + 1, cur, curV, best, bestV, hist =>
    match bestNeighbor obj (cur.get_all_neighbors rooms) with
    | none => (best, hist)
    | some (bn, bnv) =>
      if bnv < curV then
        if bnv < bestV then
          if bnv = 0 then (bn, hist)
          else steepestGo obj rooms fuel bn bnv bn bnv (hist ++ [bnv])
        else steepestGo obj rooms fuel bn bnv best bestV (hist ++ [bestV])
      else (best, hist)

/-- `HillClimbing._steepest_ascent_hc`. -/
def steepest_ascent_hc (obj : ObjectiveFunction) (rooms : List Room)
    (initial_state : State) (max_iterations : Nat) : State × List ℚ :=
  let curV := obj.calculate initial_state
  steepestGo obj rooms max_iterations initial_state curV initial_state curV [curV]

/-- The best-neighbors collection of `_sideways_move_hc`: the list of
all neighbors achieving the minimum penalty, in traversal order, with
that value (`none` for an empty neighborhood). -/
def bestNeighborsAcc (obj : ObjectiveFunction) (neighbors : List State) :
    List State × Option ℚ :=
  neighbors.foldl (fun acc nb =>
    let v := obj.calculate nb
    match acc.2 with
    | none => ([nb], some v)
    | some bv =>
      if v < bv then ([nb], some v)
      else if v = bv then (acc.1 ++ [nb], some bv)
      else acc)
    ([], none)

/-- The loop of `HillClimbing._sideways_move_hc`, with the accepted
plateau steps (`sideways`), the stagnation counter, and the
`random.choice` among equally-best neighbors. -/
def sidewaysGo (obj : ObjectiveFunction) (rooms : List Room) (r : Rng)
    (max_sideways : Nat) :
    Nat → Nat → State → ℚ → State → ℚ → Nat → Nat → List ℚ →
      State × List ℚ × Nat × Nat
  | 0, t, _, _, best, _, sideways, _, hist => (best, hist, sideways, t)
  | fuel + 1, t, cur, curV, best, bestV, sideways, stagnation, hist =>
    let neighbors := cur.get_all_neighbors rooms
    if neighbors = [] then (best, hist, sideways, t)
    else
      match bestNeighborsAcc obj neighbors with
      | (_, none) => (best, hist, sideways, t)
      | (bests, some bnv) =>
        let chosen := bests.getD (r.idx t % bests.length) dummyState
        let quad :=
          if bnv < curV then (chosen, bnv, 0, 0)
          else if bnv = curV ∧ sideways < max_sideways then
            (chosen, curV, sideways + 1, 0)
          else (cur, curV, sideways, stagnation + 1)
        let cur' := quad.1
        let curV' := quad.2.1
        let sw := quad.2.2.1
        let stg := quad.2.2.2
        if curV' < bestV then
          if curV' = 0 then (cur', hist, 0, t + 1)
          else
            let hist' := hist ++ [curV']
            if max_sideways ≤ 0 then (cur', hist', 0, t + 1)
            else if 100 < stg then (cur', hist', 0, t + 1)
            else sidewaysGo obj rooms r max_sideways fuel (t + 1)
              cur' curV' cur' curV' 0 stg hist'
        else
          let hist' := hist ++ [bestV]
          if max_sideways ≤ sw then (best, hist', sw, t + 1)
          else if 100 < stg then (best, hist', sw, t + 1)
          else sidewaysGo obj rooms r max_sideways fuel (t + 1)
            cur' curV' best bestV sw stg hist'

/-- `HillClimbing._sideways_move_hc`. -/
def sideways_move_hc (obj : ObjectiveFunction) (rooms : List Room) (r : Rng)
    (t : Nat) (initial_state : State) (max_iterations max_sideways : Nat) :
    State × List ℚ × Nat × Nat :=
  let curV := obj.calculate initial_state
  sidewaysGo obj rooms r max_sideways max_iterations t
    initial_state curV initial_state curV 0 0 [curV]

/-- The per-restart dispatch inside `_random_restart_hc`: an
unrecognized `restart_variant` silently falls through to
`_stochastic_hc` (`else:  # Default to stochastic`). -/
def restartDispatch (obj : ObjectiveFunction) (rooms : List Room) (r : Rng)
    (restart_variant : String) (max_iterations max_sideways : Nat)
    (t : Nat) (init : State) : State × List ℚ × Nat :=
  if restart_variant = "stochastic" then
    stochastic_hc obj rooms r t init max_iterations
  else if restart_variant = "steepest_ascent" then
    let res := steepest_ascent_hc obj rooms init max_iterations
    (res.1, res.2, t)
  else if restart_variant = "sideways_move" then
    let res := sideways_move_hc obj rooms r t init max_iterations max_sideways
    (res.1, res.2.1, res.2.2.2)
  else
    stochastic_hc obj rooms r t init max_iterations

/-- The `for i in range(max_restarts)` loop of
`HillClimbing._random_restart_hc`: fresh randomized fill per trial, keep
the best trial, exit immediately when a trial reaches penalty 0. -/
def randomRestartGo (obj : ObjectiveFunction) (rooms : List Room)
    (classes : List CourseClass) (r : Rng)
    (max_iterations max_sideways : Nat) (restart_variant : String) :
    Nat → Nat → Option (State × ℚ) → List ℚ → List Nat →
      Option State × List ℚ × List Nat × Nat
  | 0, t, bestOpt, bestHist, iprs => (bestOpt.map Prod.fst, bestHist, iprs, t)
  | fuel + 1, t, bestOpt, bestHist, iprs =>
    let fill := State.random_fill r t classes rooms
    let run := restartDispatch obj rooms r restart_variant
      max_iterations max_sideways fill.2 fill.1
    let iprs' := iprs ++ [run.2.1.length]
    let v := obj.calculate run.1
    let better :=
      match bestOpt with
      | none => true
      | some (_, bv) => decide (v < bv)
    if better then
      if v = 0 then (some run.1, run.2.1, iprs', run.2.2)
      else randomRestartGo obj rooms classes r max_iterations max_sideways
        restart_variant fuel run.2.2 (some (run.1, v)) run.2.1 iprs'
    else randomRestartGo obj rooms classes r max_iterations max_sideways
      restart_variant fuel run.2.2 bestOpt bestHist iprs'

/-- `HillClimbing._random_restart_hc`. -/
def random_restart_hc (obj : ObjectiveFunction) (rooms : List Room)
    (classes : List CourseClass) (r : Rng) (t : Nat)
    (max_iterations max_restarts max_sideways : Nat)
    (restart_variant : String) :
    Option State × List ℚ × List Nat × Nat :=
  randomRestartGo obj rooms classes r max_iterations max_sideways
    restart_variant max_restarts t none [] []

/-- The result record of `HillClimbing.solve` (wall-clock `duration`
omitted — it is I/O-environment data, not search state). -/
structure HCResult where
  best_state : State
  best_penalty : ℚ
  history : List ℚ
  iterations : Nat
  restarts : Nat
  iterations_per_restart : List Nat
  variant : String
  initial_penalty : ℚ
  sideways_moves_taken : Nat
deriving Repr

/-- `HillClimbing.solve`: computes the initial penalty, dispatches on
the variant name and assembles the result record; an unknown top-level
variant raises `ValueError` before any search loop runs; a
`random_restart` run whose every trial fails to produce a best state
crashes on `calculate(None)` (modelled as an error). -/
def HillClimbing.solve (obj : ObjectiveFunction) (rooms : List Room)
    (classes : List CourseClass) (r : Rng) (t : Nat) (initial_state : State)
    (variant : String) (max_iterations : Nat) (max_sideways_moves : Nat)
    (max_restarts : Nat) (restart_variant : String) :
    Except String (State × HCResult) :=
  let initial_penalty := obj.calculate initial_state
  if variant = "stochastic" then
    let res := stochastic_hc obj rooms r t initial_state max_iterations
    Except.ok (res.1, ⟨res.1, obj.calculate res.1, res.2.1, res.2.1.length,
      0, [], variant, initial_penalty, 0⟩)
  else if variant = "steepest_ascent" then
    let res := steepest_ascent_hc obj rooms initial_state max_iterations
    Except.ok (res.1, ⟨res.1, obj.calculate res.1, res.2, res.2.length,
      0, [], variant, initial_penalty, 0⟩)
  else if variant = "sideways_move" then
    let res := sideways_move_hc obj rooms r t initial_state
      max_iterations max_sideways_moves
    Except.ok (res.1, ⟨res.1, obj.calculate res.1, res.2.1, res.2.1.length,
      0, [], variant, initial_penalty, res.2.2.1⟩)
  else if variant = "random_restart" then
    let res := random_restart_hc obj rooms classes r t max_iterations
      max_restarts max_sideways_moves restart_variant
    match res.1 with
    | some best =>
      Except.ok (best, ⟨best, obj.calculate best, res.2.1, res.2.2.1.sum,
        res.2.2.1.length, res.2.2.1, variant, initial_penalty, 0⟩)
    | none => Except.error ("AttributeError: NoneType object has no attribute meetings")
  else
    Except.error ("Unknown Hill Climbing variant: " ++ variant)

/-! ## C9: stochastic hill climbing's acceptance guard and stopping -/

theorem stochasticGo_guard (obj : ObjectiveFunction) (rooms : List Room)
    (r : Rng) (fuel t : Nat) (cur : State) (curV : ℚ) (best : State)
    (bestV : ℚ) (hist : List ℚ) (nb : State) (t' : Nat)
    (hn : State.get_random_neighbor r t cur rooms = some (nb, t'))
    (hv : ¬ obj.calculate nb < curV) :
    stochasticGo obj rooms r (fuel + 1) t cur curV best bestV hist
      = stochasticGo obj rooms r fuel t' cur curV best bestV (hist ++ [bestV]) := by
  simp only [stochasticGo, hn]
  rw [if_neg hv]

theorem stochasticGo_budget (obj : ObjectiveFunction) (rooms : List Room) (r : Rng) :
    ∀ (fuel t : Nat) (cur : State) (curV : ℚ) (best : State) (bestV : ℚ)
      (hist : List ℚ),
      ((stochasticGo obj rooms r fuel t cur curV best bestV hist).2.1.length
          ≤ hist.length + fuel)
      ∧ ((stochasticGo obj rooms r fuel t cur curV best bestV hist).2.1.length
            < hist.length + fuel →
          obj.calculate (stochasticGo obj rooms r fuel t cur curV best bestV hist).1 = 0)
  | 0, t, cur, curV, best, bestV, hist => by
    constructor
    · simp [stochasticGo]
    · intro h
      simp [stochasticGo] at h
  | fuel + 1, t, cur, curV, best, bestV, hist => by
    rcases hn : State.get_random_neighbor r t cur rooms with _ | ⟨nb, t'⟩
    · have ih := stochasticGo_budget obj rooms r fuel t cur curV best bestV
        (hist ++ [bestV])
      simp only [stochasticGo, hn]
      constructor
      · have h1 := ih.1
        simp only [List.length_append, List.length_cons, List.length_nil] at h1 ⊢
        omega
      · intro h
        apply ih.2
        have h1 := ih.1
        simp only [List.length_append, List.length_cons, List.length_nil] at h1 h ⊢
        omega
    · simp only [stochasticGo, hn]
      by_cases h1 : obj.calculate nb < curV
      · rw [if_pos h1]
        by_cases h2 : obj.calculate nb < bestV
        · rw [if_pos h2]
          by_cases h3 : obj.calculate nb = 0
          · rw [if_pos h3]
            constructor
            · dsimp only
              omega
            · intro _
              exact h3
          · rw [if_neg h3]
            have ih := stochasticGo_budget obj rooms r fuel t' nb
              (obj.calculate nb) nb (obj.calculate nb) (hist ++ [obj.calculate nb])
            constructor
            · have := ih.1
              simp only [List.length_append, List.length_cons, List.length_nil] at this ⊢
              omega
            · intro h
              apply ih.2
              simp only [List.length_append, List.length_cons, List.length_nil] at h ⊢
              omega
        · rw [if_neg h2]
          have ih := stochasticGo_budget obj rooms r fuel t' nb
            (obj.calculate nb) best bestV (hist ++ [bestV])
          constructor
          · have := ih.1
            simp only [List.length_append, List.length_cons, List.length_nil] at this ⊢
            omega
          · intro h
            apply ih.2
            simp only [List.length_append, List.length_cons, List.length_nil] at h ⊢
            omega
      · rw [if_neg h1]
        have ih := stochasticGo_budget obj rooms r fuel t' cur curV best bestV
          (hist ++ [bestV])
        constructor
        · have := ih.1
          simp only [List.length_append, List.length_cons, List.length_nil] at this ⊢
          omega
        · intro h
          apply ih.2
          simp only [List.length_append, List.length_cons, List.length_nil] at h ⊢
          omega

/-- **C9** (amended): stochastic hill climbing accepts a drawn neighbor
only on a strictly lower penalty — on a tie or worse the loop state
(current and best) is unchanged and only the budget advances; and the
loop runs exactly `maxIterations` iterations (history length
`1 + maxIterations`) unless it stops earlier, which happens only when
the returned best state has penalty exactly 0.  The code has no
stagnation-window stop (see the 150-iteration stagnant counterexample). -/
theorem c9_stochastic_acceptance_and_stopping (obj : ObjectiveFunction)
    (rooms : List Room) (r : Rng) :
    (∀ (fuel t : Nat) (cur : State) (curV : ℚ) (best : State) (bestV : ℚ)
        (hist : List ℚ) (nb : State) (t' : Nat),
      State.get_random_neighbor r t cur rooms = some (nb, t') →
      ¬ obj.calculate nb < curV →
      stochasticGo obj rooms r (fuel + 1) t cur curV best bestV hist
        = stochasticGo obj rooms r fuel t' cur curV best bestV (hist ++ [bestV]))
    ∧ (∀ (t : Nat) (init : State) (maxIter : Nat),
      (stochastic_hc obj rooms r t init maxIter).2.1.length ≤ 1 + maxIter
      ∧ ((stochastic_hc obj rooms r t init maxIter).2.1.length < 1 + maxIter →
          obj.calculate (stochastic_hc obj rooms r t init maxIter).1 = 0)) := by
  constructor
  · intro fuel t cur curV best bestV hist nb t' hn hv
    exact stochasticGo_guard obj rooms r fuel t cur curV best bestV hist nb t' hn hv
  · intro t init maxIter
    have h := stochasticGo_budget obj rooms r maxIter t init
      (obj.calculate init) init (obj.calculate init) [obj.calculate init]
    unfold stochastic_hc
    constructor
    · have := h.1
      simpa [Nat.add_comm] using this
    · intro hl
      apply h.2
      simpa [Nat.add_comm] using hl

def roomS : Room := ⟨"S", 0⟩

def nbW : State := ⟨[⟨clsA, ⟨4, 17, 18⟩, roomS⟩]⟩

/-- Witness for C9: a concrete non-improving neighbor is rejected, and a
concrete bounded run respects the budget bound. -/
theorem c9_stochastic_acceptance_and_stopping_witness :
    stochasticGo ⟨true, true, true⟩ [roomS] rngHi 3 0 c2State 4 c2State 4 [4]
      = stochasticGo ⟨true, true, true⟩ [roomS] rngHi 2 5 c2State 4 c2State 4 [4, 4]
    ∧ ((stochastic_hc ⟨true, true, true⟩ [roomS] rngHi 0 ⟨[]⟩ 3).2.1.length ≤ 1 + 3
        ∧ ((stochastic_hc ⟨true, true, true⟩ [roomS] rngHi 0 ⟨[]⟩ 3).2.1.length < 1 + 3 →
            ObjectiveFunction.calculate ⟨true, true, true⟩
              (stochastic_hc ⟨true, true, true⟩ [roomS] rngHi 0 ⟨[]⟩ 3).1 = 0)) :=
  ⟨(c9_stochastic_acceptance_and_stopping ⟨true, true, true⟩ [roomS] rngHi).1
      2 0 c2State 4 c2State 4 [4] nbW 5 (by decide) (by decide),
   (c9_stochastic_acceptance_and_stopping ⟨true, true, true⟩ [roomS] rngHi).2
      0 ⟨[]⟩ 3⟩

/-- **C9** counterexample: on the empty schedule (whose penalty is 0 and
which never yields a neighbor), a 150-iteration stochastic run makes no
improvement at any iteration yet still executes all 150 iterations —
there is no stagnation-window stop (the only stagnation window in the
module, `_sideways_move_hc`'s, is 100 iterations). -/
theorem c9_no_stagnation_stop :
    (stochastic_hc ⟨true, true, true⟩ [roomR] rngLo 0 ⟨[]⟩ 150).2.1
      = List.replicate 151 (0 : ℚ) := by decide

/-! ## C10: unknown variant names -/

theorem restartDispatch_default (obj : ObjectiveFunction) (rooms : List Room)
    (r : Rng) (rv : String) (mi ms : Nat) (t : Nat) (init : State)
    (h : rv ∉ (["stochastic", "steepest_ascent", "sideways_move"] : List String)) :
    restartDispatch obj rooms r rv mi ms t init
      = restartDispatch obj rooms r "stochastic" mi ms t init := by
  have h1 : rv ≠ "stochastic" := fun he => h (by simp [he])
  have h2 : rv ≠ "steepest_ascent" := fun he => h (by simp [he])
  have h3 : rv ≠ "sideways_move" := fun he => h (by simp [he])
  unfold restartDispatch
  rw [if_neg h1, if_neg h2, if_neg h3, if_pos rfl]

theorem randomRestartGo_default (obj : ObjectiveFunction) (rooms : List Room)
    (classes : List CourseClass) (r : Rng) (mi ms : Nat) (rv : String)
    (h : rv ∉ (["stochastic", "steepest_ascent", "sideways_move"] : List String)) :
    ∀ (fuel t : Nat) (bo : Option (State × ℚ)) (bh : List ℚ) (ip : List Nat),
      randomRestartGo obj rooms classes r mi ms rv fuel t bo bh ip
        = randomRestartGo obj rooms classes r mi ms "stochastic" fuel t bo bh ip
  | 0, _, _, _, _ => rfl
  | fuel + 1, t, bo, bh, ip => by
    have hrec := randomRestartGo_default obj rooms classes r mi ms rv h fuel
    simp only [randomRestartGo,
      restartDispatch_default obj rooms r rv mi ms _ _ h]
    simp only [hrec]

/-- **C10** (amended): `HillClimbing.solve` fails fast with
`ValueError: Unknown Hill Climbing variant` for every unrecognized
top-level variant name, producing no result record; but
`_random_restart_hc` does NOT fail on an unrecognized `restartVariant` —
it silently behaves exactly as `restartVariant = "stochastic"`
(`else:  # Default to stochastic`). -/
theorem c10_unknown_variant_behaviour (obj : ObjectiveFunction)
    (rooms : List Room) (classes : List CourseClass) (r : Rng) (t : Nat)
    (init : State) (variant : String) (maxIter maxSw maxRe : Nat) (rv : String)
    (hv : variant ∉ (["stochastic", "steepest_ascent", "sideways_move",
        "random_restart"] : List String))
    (hrv : rv ∉ (["stochastic", "steepest_ascent", "sideways_move"] : List String)) :
    HillClimbing.solve obj rooms classes r t init variant maxIter maxSw maxRe rv
      = Except.error ("Unknown Hill Climbing variant: " ++ variant)
    ∧ random_restart_hc obj rooms classes r t maxIter maxRe maxSw rv
      = random_restart_hc obj rooms classes r t maxIter maxRe maxSw "stochastic" := by
  constructor
  · have h1 : variant ≠ "stochastic" := fun he => hv (by simp [he])
    have h2 : variant ≠ "steepest_ascent" := fun he => hv (by simp [he])
    have h3 : variant ≠ "sideways_move" := fun he => hv (by simp [he])
    have h4 : variant ≠ "random_restart" := fun he => hv (by simp [he])
    unfold HillClimbing.solve
    rw [if_neg h1, if_neg h2, if_neg h3, if_neg h4]
  · unfold random_restart_hc
    exact randomRestartGo_default obj rooms classes r maxIter maxSw rv hrv
      maxRe t none [] []

def clsE : CourseClass := ⟨"E", 0, 1, []⟩

/-- Witness for C10 at the concrete unknown names. -/
theorem c10_unknown_variant_behaviour_witness :
    HillClimbing.solve ⟨true, true, true⟩ [roomR] [clsE] rngLo 0 ⟨[]⟩
        "bogus_variant" 1 100 1 "bogus_restart"
      = Except.error ("Unknown Hill Climbing variant: " ++ "bogus_variant")
    ∧ random_restart_hc ⟨true, true, true⟩ [roomR] [clsE] rngLo 0 1 1 100
        "bogus_restart"
      = random_restart_hc ⟨true, true, true⟩ [roomR] [clsE] rngLo 0 1 1 100
        "stochastic" :=
  c10_unknown_variant_behaviour ⟨true, true, true⟩ [roomR] [clsE] rngLo 0 ⟨[]⟩
    "bogus_variant" 1 100 1 "bogus_restart" (by decide) (by decide)

/-- **C10** counterexample: with the unrecognized restart variant
"bogus", `solve(variant="random_restart")` does not fail fast — the
run completes and returns a result record. -/
theorem c10_counterexample :
    (HillClimbing.solve ⟨true, true, true⟩ [roomR] [clsE] rngLo 0 ⟨[]⟩
        "random_restart" 0 100 1 "bogus").isOk = true := by decide

/-! ## `SimulatedAnnealing` (`src/algorithms/simulated_annealing.py`)

Temperatures and acceptance probabilities are real numbers
(`math.exp` becomes `Real.exp`); penalties stay exact rationals and are
cast where the Python code mixes them. -/

/-- `SimulatedAnnealing.acceptance_probability`: 1.0 on strict
improvement; else 0.0 below the `1e-10` temperature floor, else
`exp(ΔE/T)` clamped by `min(probability, 1.0)`.  In the non-improving
branch `ΔE = current - neighbor ≤ 0`, so the real exponential is ≤ 1
and the Python `except OverflowError: probability = 1.0` arm is
unreachable. -/
noncomputable def acceptance_probability
    (current_penalty neighbor_penalty temperature : ℝ) : ℝ :=
  if neighbor_penalty < current_penalty then 1
  else
    let delta_E := current_penalty - neighbor_penalty
    if temperature < 1 / 10 ^ 10 then 0
    else min (Real.exp (delta_E / temperature)) 1

/-- `SimulatedAnnealing.detect_local_optimum`: the last `window` entries
of the best-penalty history span less than 0.01. -/
def detect_local_optimum (best_objective_history : List ℚ) (window : Nat) : Bool :=
  if best_objective_history.length < window then false
  else
    let recent := best_objective_history.drop
      (best_objective_history.length - window)
    let mx := recent.foldl max (recent.headD 0)
    let mn := recent.foldl min (recent.headD 0)
    decide (mx - mn < 1 / 100)

/-- The mutable state of `SimulatedAnnealing.run`'s main loop, bundling
the search state, the temperature, the counters and every history the
result record reports. -/
structure SAState where
  cur : State
  curV : ℚ
  best : State
  bestV : ℚ
  temperature : ℝ
  iteration : Nat
  last_stuck_check : Nat
  t : Nat
  objective_history : List ℚ
  acceptance_prob_history : List ℝ
  best_objective_history : List ℚ
  temperature_history : List ℝ
  local_optima_count : Nat
  iterations_stuck : List Nat

/-- The `while temperature > min_temp and iteration < max_iterations`
loop of `SimulatedAnnealing.run` (fuel = `max_iterations` suffices since
`iteration` increments every pass).  `none` models the crash
`calculate(None)` when the schedule has no meetings.  On the
perfect-solution break the histories beyond the acceptance-probability
append are skipped, exactly as the Python `break` at line 181. -/
noncomputable def saGo (obj : ObjectiveFunction) (rooms : List Room) (r : Rng)
    (cooling_rate min_temp : ℝ) (max_iterations : Nat) :
    Nat → SAState → Option SAState
  | 0, st => some st
  | fuel + 1, st =>
    if min_temp < st.temperature ∧ st.iteration < max_iterations then
      match State.get_random_neighbor r st.t st.cur rooms with
      | none => none
      | some (nb, t') =>
        let nv := obj.calculate nb
        let accept_prob := acceptance_probability (st.curV : ℝ) ((nv : ℚ) : ℝ)
          st.temperature
        let aph := st.acceptance_prob_history ++ [accept_prob]
        let step := fun (cur' : State) (curV' : ℚ) (best' : State) (bestV' : ℚ) =>
          let oh := st.objective_history ++ [curV']
          let bh := st.best_objective_history ++ [bestV']
          let temp' := st.temperature * cooling_rate
          let th := st.temperature_history ++ [temp']
          let doCheck := 50 ≤ st.iteration - st.last_stuck_check
          let stuck := doCheck ∧ detect_local_optimum bh 50 = true
          saGo obj rooms r cooling_rate min_temp max_iterations fuel
            ⟨cur', curV', best', bestV', temp', st.iteration + 1,
             if doCheck then st.iteration else st.last_stuck_check, t' + 1,
             oh, aph, bh, th,
             if stuck then st.local_optima_count + 1 else st.local_optima_count,
             if stuck then st.iterations_stuck ++ [st.iteration]
             else st.iterations_stuck⟩
        if (r.unit t' : ℝ) < accept_prob then
          if nv < st.bestV then
            if nv = 0 then
              some { st with
                cur := nb
                curV := nv
                best := nb
                bestV := nv
                acceptance_prob_history := aph
                t := t' + 1 }
            else step nb nv nb nv
          else step nb nv st.best st.bestV
        else step st.cur st.curV st.best st.bestV
    else some st

/-- `SimulatedAnnealing.run`: fresh randomized schedule, initial
tracking state, the `verbose`-gated zero-initial-penalty early return,
then the main loop. -/
noncomputable def SimulatedAnnealing.run (obj : ObjectiveFunction)
    (classes : List CourseClass) (rooms : List Room) (r : Rng) (t : Nat)
    (initial_temp cooling_rate min_temp : ℝ) (max_iterations : Nat)
    (verbose : Bool) : Option SAState :=
  let fill := State.random_fill r t classes rooms
  let current_penalty := obj.calculate fill.1
  let st0 : SAState :=
    ⟨fill.1, current_penalty, fill.1, current_penalty, initial_temp, 0, 0,
     fill.2, [current_penalty], [], [current_penalty], [initial_temp], 0, []⟩
  if verbose ∧ current_penalty = 0 then some st0
  else saGo obj rooms r cooling_rate min_temp max_iterations max_iterations st0

/-- **C4**: `acceptance_probability` returns exactly 1.0 on a strict
improvement; else 0.0 when `T < 1e-10`; else `exp((c - n)/T)` clamped to
at most 1 by `min(·, 1.0)`; and the result always lies in [0, 1].  The
`OverflowError → 1.0` arm is float-specific and unreachable in the
non-improving branch, where the exponent is ≤ 0. -/
theorem c4_acceptance_probability_spec (c n T : ℝ) :
    (n < c → acceptance_probability c n T = 1)
    ∧ (¬ n < c → T < 1 / 10 ^ 10 → acceptance_probability c n T = 0)
    ∧ (¬ n < c → ¬ T < 1 / 10 ^ 10 →
        acceptance_probability c n T = min (Real.exp ((c - n) / T)) 1)
    ∧ 0 ≤ acceptance_probability c n T
    ∧ acceptance_probability c n T ≤ 1 := by
  unfold acceptance_probability
  dsimp only
  refine ⟨fun h => by rw [if_pos h], fun h hT => by rw [if_neg h, if_pos hT],
    fun h hT => by rw [if_neg h, if_neg hT], ?_, ?_⟩
  · by_cases h : n < c
    · rw [if_pos h]
      norm_num
    · rw [if_neg h]
      by_cases hT : T < 1 / 10 ^ 10
      · rw [if_pos hT]
      · rw [if_neg hT]
        exact le_min (Real.exp_pos _).le zero_le_one
  · by_cases h : n < c
    · rw [if_pos h]
    · rw [if_neg h]
      by_cases hT : T < 1 / 10 ^ 10
      · rw [if_pos hT]
        norm_num
      · rw [if_neg hT]
        exact min_le_right _ _

/-- Witness for C4 at concrete penalties and temperature. -/
theorem c4_acceptance_probability_spec_witness :
    acceptance_probability 1 0 5 = 1 ∧ acceptance_probability 0 1 0 = 0 :=
  ⟨(c4_acceptance_probability_spec 1 0 5).1 (by norm_num),
   (c4_acceptance_probability_spec 0 1 0).2.1 (by norm_num) (by norm_num)⟩

/-! ## C3: immediate exit when an accepted improvement reaches 0 -/

theorem stochasticGo_zero_break (obj : ObjectiveFunction) (rooms : List Room)
    (r : Rng) (fuel t : Nat) (cur : State) (curV : ℚ) (best : State)
    (bestV : ℚ) (hist : List ℚ) (nb : State) (t' : Nat)
    (hn : State.get_random_neighbor r t cur rooms = some (nb, t'))
    (hz : obj.calculate nb = 0) (hcur : 0 < curV) (hbest : 0 < bestV) :
    stochasticGo obj rooms r (fuel + 1) t cur curV best bestV hist
      = (nb, hist, t') := by
  simp only [stochasticGo, hn]
  have h1 : obj.calculate nb < curV := by rw [hz]; exact hcur
  have h2 : obj.calculate nb < bestV := by rw [hz]; exact hbest
  rw [if_pos h1, if_pos h2, if_pos hz]

theorem steepestGo_zero_break (obj : ObjectiveFunction) (rooms : List Room)
    (fuel : Nat) (cur : State) (curV : ℚ) (best : State) (bestV : ℚ)
    (hist : List ℚ) (bn : State)
    (hbn : bestNeighbor obj (cur.get_all_neighbors rooms) = some (bn, 0))
    (hcur : 0 < curV) (hbest : 0 < bestV) :
    steepestGo obj rooms (fuel + 1) cur curV best bestV hist = (bn, hist) := by
  simp only [steepestGo, hbn]
  rw [if_pos hcur, if_pos hbest]
  simp

theorem sidewaysGo_zero_break (obj : ObjectiveFunction) (rooms : List Room)
    (r : Rng) (maxSw fuel t : Nat) (cur : State) (curV : ℚ) (best : State)
    (bestV : ℚ) (sideways stagnation : Nat) (hist : List ℚ)
    (hne : ¬ cur.get_all_neighbors rooms = [])
    (hacc : (bestNeighborsAcc obj (cur.get_all_neighbors rooms)).2 = some 0)
    (hcur : 0 < curV) (hbest : 0 < bestV) :
    sidewaysGo obj rooms r maxSw (fuel + 1) t cur curV best bestV
        sideways stagnation hist
      = ((bestNeighborsAcc obj (cur.get_all_neighbors rooms)).1.getD
          (r.idx t % (bestNeighborsAcc obj (cur.get_all_neighbors rooms)).1.length)
          dummyState, hist, 0, t + 1) := by
  rcases hp : bestNeighborsAcc obj (cur.get_all_neighbors rooms) with ⟨bests, os⟩
  rw [hp] at hacc
  simp only at hacc
  subst hacc
  simp only [sidewaysGo, if_neg hne, hp]
  rw [if_pos hcur]
  simp only
  rw [if_pos hbest]
  simp

theorem saGo_zero_break (obj : ObjectiveFunction) (rooms : List Room) (r : Rng)
    (cooling_rate min_temp : ℝ) (max_iterations fuel : Nat) (st : SAState)
    (nb : State) (t' : Nat)
    (hT : min_temp < st.temperature) (hI : st.iteration < max_iterations)
    (hn : State.get_random_neighbor r st.t st.cur rooms = some (nb, t'))
    (hz : obj.calculate nb = 0)
    (ha : (r.unit t' : ℝ) < acceptance_probability (st.curV : ℝ)
        ((obj.calculate nb : ℚ) : ℝ) st.temperature)
    (hb : 0 < st.bestV) :
    saGo obj rooms r cooling_rate min_temp max_iterations (fuel + 1) st
      = some { st with
          cur := nb
          curV := obj.calculate nb
          best := nb
          bestV := obj.calculate nb
          acceptance_prob_history := st.acceptance_prob_history
            ++ [acceptance_probability (st.curV : ℝ)
                  ((obj.calculate nb : ℚ) : ℝ) st.temperature]
          t := t' + 1 } := by
  simp only [saGo]
  rw [if_pos ⟨hT, hI⟩]
  simp only [hn]
  rw [if_pos ha]
  have h2 : obj.calculate nb < st.bestV := by rw [hz]; exact hb
  rw [if_pos h2, if_pos hz]

/-- **C3** (amended): every search loop exits immediately — regardless
of remaining budget — at the iteration in which an *accepted strict
improvement* brings the best penalty to exactly 0: stochastic,
steepest-ascent and sideways-move hill climbing return on the spot, and
simulated annealing's loop returns on the spot.  However, a best
penalty that is already 0 on entry does not trigger the exit (the check
lives inside the improvement branch, and SA's zero-initial-penalty
early return is nested under `if verbose:`): see the counterexample,
where a penalty-0 initial schedule still runs the full stochastic
budget. -/
theorem c3_zero_penalty_exit (obj : ObjectiveFunction) (rooms : List Room)
    (r : Rng) (cooling_rate min_temp : ℝ) (max_iterations maxSw : Nat) :
    (∀ (fuel t : Nat) (cur : State) (curV : ℚ) (best : State) (bestV : ℚ)
        (hist : List ℚ) (nb : State) (t' : Nat),
      State.get_random_neighbor r t cur rooms = some (nb, t') →
      obj.calculate nb = 0 → 0 < curV → 0 < bestV →
      stochasticGo obj rooms r (fuel + 1) t cur curV best bestV hist
        = (nb, hist, t'))
    ∧ (∀ (fuel : Nat) (cur : State) (curV : ℚ) (best : State) (bestV : ℚ)
        (hist : List ℚ) (bn : State),
      bestNeighbor obj (cur.get_all_neighbors rooms) = some (bn, 0) →
      0 < curV → 0 < bestV →
      steepestGo obj rooms (fuel + 1) cur curV best bestV hist = (bn, hist))
    ∧ (∀ (fuel t : Nat) (cur : State) (curV : ℚ) (best : State) (bestV : ℚ)
        (sideways stagnation : Nat) (hist : List ℚ),
      ¬ cur.get_all_neighbors rooms = [] →
      (bestNeighborsAcc obj (cur.get_all_neighbors rooms)).2 = some 0 →
      0 < curV → 0 < bestV →
      sidewaysGo obj rooms r maxSw (fuel + 1) t cur curV best bestV
          sideways stagnation hist
        = ((bestNeighborsAcc obj (cur.get_all_neighbors rooms)).1.getD
            (r.idx t % (bestNeighborsAcc obj (cur.get_all_neighbors rooms)).1.length)
            dummyState, hist, 0, t + 1))
    ∧ (∀ (fuel : Nat) (st : SAState) (nb : State) (t' : Nat),
      min_temp < st.temperature → st.iteration < max_iterations →
      State.get_random_neighbor r st.t st.cur rooms = some (nb, t') →
      obj.calculate nb = 0 →
      (r.unit t' : ℝ) < acceptance_probability (st.curV : ℝ)
          ((obj.calculate nb : ℚ) : ℝ) st.temperature →
      0 < st.bestV →
      saGo obj rooms r cooling_rate min_temp max_iterations (fuel + 1) st
        = some { st with
            cur := nb
            curV := obj.calculate nb
            best := nb
            bestV := obj.calculate nb
            acceptance_prob_history := st.acceptance_prob_history
              ++ [acceptance_probability (st.curV : ℝ)
                    ((obj.calculate nb : ℚ) : ℝ) st.temperature]
            t := t' + 1 }) :=
  ⟨fun fuel t cur curV best bestV hist nb t' hn hz hc hb =>
      stochasticGo_zero_break obj rooms r fuel t cur curV best bestV hist nb t' hn hz hc hb,
   fun fuel cur curV best bestV hist bn hbn hc hb =>
      steepestGo_zero_break obj rooms fuel cur curV best bestV hist bn hbn hc hb,
   fun fuel t cur curV best bestV sideways stagnation hist hne hacc hc hb =>
      sidewaysGo_zero_break obj rooms r maxSw fuel t cur curV best bestV
        sideways stagnation hist hne hacc hc hb,
   fun fuel st nb t' hT hI hn hz ha hb =>
      saGo_zero_break obj rooms r cooling_rate min_temp max_iterations fuel st
        nb t' hT hI hn hz ha hb⟩

/-- **C3** counterexample: the empty schedule has penalty exactly 0,
yet a stochastic run with budget 2 still executes both iterations (the
history receives two further appends) instead of terminating instantly. -/
theorem c3_zero_initial_penalty_still_iterates :
    ObjectiveFunction.calculate ⟨true, true, true⟩ ⟨[]⟩ = 0
    ∧ (stochastic_hc ⟨true, true, true⟩ [roomR] rngLo 0 ⟨[]⟩ 2).2.1.length = 3 := by
  constructor <;> decide

def roomBig : Room := ⟨"G", 20⟩

def c3Cur : State := ⟨[⟨clsA, ⟨0, 7, 8⟩, roomS⟩]⟩

def nbZ : State := ⟨[⟨clsA, ⟨4, 17, 18⟩, roomBig⟩]⟩

def nb0 : State := ⟨[⟨clsA, ⟨0, 7, 8⟩, roomBig⟩]⟩

def saSt : SAState :=
  ⟨c3Cur, 10, c3Cur, 10, 500, 0, 0, 0, [10], [], [10], [500], 0, []⟩

/-- Witness for C3 at concrete penalty-10 schedules whose drawn (or
best) neighbor has penalty 0. -/
theorem c3_zero_penalty_exit_witness :
    stochasticGo ⟨true, true, true⟩ [roomBig] rngHi 3 0 c3Cur 10 c3Cur 10 [10]
      = (nbZ, [10], 5)
    ∧ steepestGo ⟨true, true, true⟩ [roomBig] 3 c3Cur 10 c3Cur 10 [10]
      = (nb0, [10])
    ∧ sidewaysGo ⟨true, true, true⟩ [roomBig] rngHi 100 3 0 c3Cur 10 c3Cur 10 0 0 [10]
      = ((bestNeighborsAcc ⟨true, true, true⟩
            (c3Cur.get_all_neighbors [roomBig])).1.getD
          (rngHi.idx 0 % (bestNeighborsAcc ⟨true, true, true⟩
            (c3Cur.get_all_neighbors [roomBig])).1.length)
          dummyState, [10], 0, 1)
    ∧ saGo ⟨true, true, true⟩ [roomBig] rngHi (97/100) (1/100) 5 3 saSt
      = some { saSt with
          cur := nbZ
          curV := ObjectiveFunction.calculate ⟨true, true, true⟩ nbZ
          best := nbZ
          bestV := ObjectiveFunction.calculate ⟨true, true, true⟩ nbZ
          acceptance_prob_history := saSt.acceptance_prob_history
            ++ [acceptance_probability (saSt.curV : ℝ)
                  ((ObjectiveFunction.calculate ⟨true, true, true⟩ nbZ : ℚ) : ℝ)
                  saSt.temperature]
          t := 6 } :=
  ⟨(c3_zero_penalty_exit ⟨true, true, true⟩ [roomBig] rngHi (97/100) (1/100) 5 100).1
      2 0 c3Cur 10 c3Cur 10 [10] nbZ 5 (by decide) (by decide)
      (by decide) (by decide),
   (c3_zero_penalty_exit ⟨true, true, true⟩ [roomBig] rngHi (97/100) (1/100) 5 100).2.1
      2 c3Cur 10 c3Cur 10 [10] nb0 (by decide) (by decide) (by decide),
   (c3_zero_penalty_exit ⟨true, true, true⟩ [roomBig] rngHi (97/100) (1/100) 5 100).2.2.1
      2 0 c3Cur 10 c3Cur 10 0 0 [10] (by decide) (by decide) (by decide) (by decide),
   (c3_zero_penalty_exit ⟨true, true, true⟩ [roomBig] rngHi (97/100) (1/100) 5 100).2.2.2
      2 saSt nbZ 5 (by unfold saSt; norm_num) (by unfold saSt; norm_num)
      (by decide) (by decide)
      (by
        have hz : ObjectiveFunction.calculate ⟨true, true, true⟩ nbZ = 0 := by decide
        rw [hz]
        show (rngHi.unit 5 : ℝ) < acceptance_probability ((10 : ℚ) : ℝ) ((0 : ℚ) : ℝ) 500
        unfold acceptance_probability
        rw [if_pos (by push_cast; norm_num : ((0 : ℚ) : ℝ) < ((10 : ℚ) : ℝ))]
        show ((0 : ℚ) : ℝ) < 1
        push_cast
        norm_num)
      (by decide)⟩

/-! ## `GeneticAlgorithm` (`src/algorithms/genetic.py`) -/

/-- The `courses_from_parent1` set of `GeneticAlgorithm.crossover`: the
union of both parents' class codes (a Python `set` built by two add
loops — dedup with oracle-chosen iteration order), split at
`len(course_list) // 2`, first half. -/
def crossoverFirstHalf (r : Rng) (t : Nat) (p1 p2 : State) : List String :=
  let all_courses := (p1.meetings.map (fun m => m.course_class.code)
    ++ p2.meetings.map (fun m => m.course_class.code)).dedup
  let course_list := r.shuffle t all_courses
  course_list.take (course_list.length / 2)

/-- The complementary half of the class-code union. -/
def crossoverSecondHalf (r : Rng) (t : Nat) (p1 p2 : State) : List String :=
  let all_courses := (p1.meetings.map (fun m => m.course_class.code)
    ++ p2.meetings.map (fun m => m.course_class.code)).dedup
  let course_list := r.shuffle t all_courses
  course_list.drop (course_list.length / 2)

/-- `GeneticAlgorithm.crossover`: `child1` takes parent1's meetings for
codes in `courses_from_parent1` followed by parent2's meetings for the
remaining codes; `child2` receives the complement. -/
def GeneticAlgorithm.crossover (r : Rng) (t : Nat) (p1 p2 : State) :
    State × State × Nat :=
  let courses_from_parent1 := crossoverFirstHalf r t p1 p2
  let c1 := p1.meetings.filter
      (fun m => m.course_class.code ∈ courses_from_parent1)
    ++ p2.meetings.filter
      (fun m => ¬ m.course_class.code ∈ courses_from_parent1)
  let c2 := p2.meetings.filter
      (fun m => m.course_class.code ∈ courses_from_parent1)
    ++ p1.meetings.filter
      (fun m => ¬ m.course_class.code ∈ courses_from_parent1)
  (⟨c1⟩, ⟨c2⟩, t + 1)

theorem filter_code_of_mem_half (code : String) (hs : List String)
    (ms : List Allocation) (hmem : code ∈ hs) :
    (ms.filter (fun m => m.course_class.code ∈ hs)).filter
        (fun m => m.course_class.code = code)
      = ms.filter (fun m => m.course_class.code = code) := by
  rw [List.filter_filter]
  apply List.filter_congr
  intro m _
  by_cases h : m.course_class.code = code
  · simp [h, hmem]
  · simp [h]

theorem filter_code_of_not_mem_half (code : String) (hs : List String)
    (ms : List Allocation) (hmem : code ∉ hs) :
    (ms.filter (fun m => m.course_class.code ∈ hs)).filter
        (fun m => m.course_class.code = code) = [] := by
  rw [List.filter_filter, List.filter_eq_nil_iff]
  intro m _
  by_cases h : m.course_class.code = code
  · simp [h, hmem]
  · simp [h]

theorem filter_code_of_mem_half_neg (code : String) (hs : List String)
    (ms : List Allocation) (hmem : code ∉ hs) :
    (ms.filter (fun m => ¬ m.course_class.code ∈ hs)).filter
        (fun m => m.course_class.code = code)
      = ms.filter (fun m => m.course_class.code = code) := by
  rw [List.filter_filter]
  apply List.filter_congr
  intro m _
  by_cases h : m.course_class.code = code
  · simp [h, hmem]
  · simp [h]

theorem filter_code_of_not_mem_half_neg (code : String) (hs : List String)
    (ms : List Allocation) (hmem : code ∈ hs) :
    (ms.filter (fun m => ¬ m.course_class.code ∈ hs)).filter
        (fun m => m.course_class.code = code) = [] := by
  rw [List.filter_filter, List.filter_eq_nil_iff]
  intro m _
  by_cases h : m.course_class.code = code
  · simp [h, hmem]
  · simp [h]

/-- **C6**: for parents covering the same class-code set, each child's
meetings per class code are exactly one parent's meetings for that code
(child1: parent1 on the first half of the code union, parent2
elsewhere; child2 the complement), and every code of the union lands in
exactly one of the two halves. -/
theorem c6_crossover_per_class (r : Rng) (t : Nat) (p1 p2 : State)
    (hsh : Rng.ShuffleOk r)
    (hsame : ∀ code ∈ (p1.meetings.map (fun m => m.course_class.code)
        ++ p2.meetings.map (fun m => m.course_class.code)),
      (code ∈ p1.meetings.map (fun m => m.course_class.code)
        ↔ code ∈ p2.meetings.map (fun m => m.course_class.code))) :
    ∀ code : String,
      ((GeneticAlgorithm.crossover r t p1 p2).1.meetings.filter
          (fun m => m.course_class.code = code)
        = if code ∈ crossoverFirstHalf r t p1 p2
          then p1.meetings.filter (fun m => m.course_class.code = code)
          else p2.meetings.filter (fun m => m.course_class.code = code))
      ∧ ((GeneticAlgorithm.crossover r t p1 p2).2.1.meetings.filter
          (fun m => m.course_class.code = code)
        = if code ∈ crossoverFirstHalf r t p1 p2
          then p2.meetings.filter (fun m => m.course_class.code = code)
          else p1.meetings.filter (fun m => m.course_class.code = code))
      ∧ (((∃ m ∈ p1.meetings, m.course_class.code = code)
            ∨ (∃ m ∈ p2.meetings, m.course_class.code = code)) →
          ((code ∈ crossoverFirstHalf r t p1 p2
              ∧ code ∉ crossoverSecondHalf r t p1 p2)
            ∨ (code ∉ crossoverFirstHalf r t p1 p2
              ∧ code ∈ crossoverSecondHalf r t p1 p2))) := by
  intro code
  refine ⟨?_, ?_, ?_⟩
  · show ((p1.meetings.filter
        (fun m => m.course_class.code ∈ crossoverFirstHalf r t p1 p2)
      ++ p2.meetings.filter
        (fun m => ¬ m.course_class.code ∈ crossoverFirstHalf r t p1 p2)).filter
          (fun m => m.course_class.code = code)) = _
    rw [List.filter_append]
    by_cases h : code ∈ crossoverFirstHalf r t p1 p2
    · rw [if_pos h, filter_code_of_mem_half code _ _ h,
          filter_code_of_not_mem_half_neg code _ _ h, List.append_nil]
    · rw [if_neg h, filter_code_of_not_mem_half code _ _ h,
          filter_code_of_mem_half_neg code _ _ h, List.nil_append]
  · show ((p2.meetings.filter
        (fun m => m.course_class.code ∈ crossoverFirstHalf r t p1 p2)
      ++ p1.meetings.filter
        (fun m => ¬ m.course_class.code ∈ crossoverFirstHalf r t p1 p2)).filter
          (fun m => m.course_class.code = code)) = _
    rw [List.filter_append]
    by_cases h : code ∈ crossoverFirstHalf r t p1 p2
    · rw [if_pos h, filter_code_of_mem_half code _ _ h,
          filter_code_of_not_mem_half_neg code _ _ h, List.append_nil]
    · rw [if_neg h, filter_code_of_not_mem_half code _ _ h,
          filter_code_of_mem_half_neg code _ _ h, List.nil_append]
  · intro hmem
    have hperm := hsh t ((p1.meetings.map (fun m => m.course_class.code)
      ++ p2.meetings.map (fun m => m.course_class.code)).dedup)
    have hnd : (r.shuffle t ((p1.meetings.map (fun m => m.course_class.code)
        ++ p2.meetings.map (fun m => m.course_class.code)).dedup)).Nodup :=
      hperm.nodup_iff.mpr (List.nodup_dedup _)
    have hmem2 : code ∈ r.shuffle t ((p1.meetings.map
        (fun m => m.course_class.code)
        ++ p2.meetings.map (fun m => m.course_class.code)).dedup) := by
      apply hperm.mem_iff.mpr
      rw [List.mem_dedup, List.mem_append]
      rcases hmem with ⟨m, hm, hc⟩ | ⟨m, hm, hc⟩
      · exact Or.inl (List.mem_map.mpr ⟨m, hm, hc⟩)
      · exact Or.inr (List.mem_map.mpr ⟨m, hm, hc⟩)
    set sl := r.shuffle t ((p1.meetings.map (fun m => m.course_class.code)
      ++ p2.meetings.map (fun m => m.course_class.code)).dedup) with hsl
    have hsplit := List.take_append_drop (sl.length / 2) sl
    have hnd2 : (sl.take (sl.length / 2) ++ sl.drop (sl.length / 2)).Nodup := by
      rw [hsplit]; exact hnd
    rw [List.nodup_append] at hnd2
    have hm3 : code ∈ sl.take (sl.length / 2) ++ sl.drop (sl.length / 2) := by
      rw [hsplit]; exact hmem2
    have hh1 : crossoverFirstHalf r t p1 p2 = sl.take (sl.length / 2) := rfl
    have hh2 : crossoverSecondHalf r t p1 p2 = sl.drop (sl.length / 2) := rfl
    rw [hh1, hh2]
    rcases List.mem_append.mp hm3 with h | h
    · exact Or.inl ⟨h, fun h2 => hnd2.2.2 h h2⟩
    · refine Or.inr ⟨fun h1 => hnd2.2.2 h1 h, h⟩

def p2State : State := ⟨[⟨clsB, ⟨1, 9, 10⟩, roomR⟩, ⟨clsA, ⟨2, 8, 10⟩, roomBig⟩]⟩

/-- Witness for C6 at concrete two-class parents. -/
theorem c6_crossover_per_class_witness :
    ((GeneticAlgorithm.crossover rngLo 0 wState p2State).1.meetings.filter
        (fun m => m.course_class.code = "A")
      = if "A" ∈ crossoverFirstHalf rngLo 0 wState p2State
        then wState.meetings.filter (fun m => m.course_class.code = "A")
        else p2State.meetings.filter (fun m => m.course_class.code = "A"))
    ∧ ((GeneticAlgorithm.crossover rngLo 0 wState p2State).2.1.meetings.filter
        (fun m => m.course_class.code = "A")
      = if "A" ∈ crossoverFirstHalf rngLo 0 wState p2State
        then p2State.meetings.filter (fun m => m.course_class.code = "A")
        else wState.meetings.filter (fun m => m.course_class.code = "A"))
    ∧ (((∃ m ∈ wState.meetings, m.course_class.code = "A")
          ∨ (∃ m ∈ p2State.meetings, m.course_class.code = "A")) →
        (("A" ∈ crossoverFirstHalf rngLo 0 wState p2State
            ∧ "A" ∉ crossoverSecondHalf rngLo 0 wState p2State)
          ∨ ("A" ∉ crossoverFirstHalf rngLo 0 wState p2State
            ∧ "A" ∈ crossoverSecondHalf rngLo 0 wState p2State))) :=
  c6_crossover_per_class rngLo 0 wState p2State (fun _ l => List.Perm.refl l)
    (by decide) "A"

/-- The per-meeting tuple of `GeneticAlgorithm._get_state_hash`:
`(class code, day, start, end, room code)`. -/
def tupOf (m : Allocation) : String × Int × Int × Int × String :=
  (m.course_class.code, m.time_slot.day, m.time_slot.start_hour,
   m.time_slot.end_hour, m.room.code)

/-- `_get_state_hash`: `hash(tuple(sorted(tuples)))`.  The sorted tuple
list is a canonical representative of the multiset of tuples and `hash`
is modelled as injective, so the cache key is that multiset. -/
def stateFingerprint (s : State) : Multiset (String × Int × Int × Int × String) :=
  (s.meetings.map tupOf : List (String × Int × Int × Int × String))

/-- A `dict` keyed by state fingerprints (insertion-ordered). -/
abbrev PenaltyCache : Type := List (Multiset (String × Int × Int × Int × String) × ℚ)

/-- `key in cache` / `cache[key]`. -/
def cacheFind (c : PenaltyCache)
    (k : Multiset (String × Int × Int × Int × String)) : Option ℚ :=
  (c.find? (fun p => p.1 = k)).map (fun p => p.2)

/-- `cache[key] = value` (overwrite or append). -/
def cacheSet (c : PenaltyCache)
    (k : Multiset (String × Int × Int × Int × String)) (v : ℚ) : PenaltyCache :=
  if (c.find? (fun p => p.1 = k)).isSome then
    c.map (fun p => if p.1 = k then (p.1, v) else p)
  else c ++ [(k, v)]

/-- The `_fitness_cache` / `_penalty_cache` pair. -/
structure GACaches where
  fit : PenaltyCache
  pen : PenaltyCache

/-- `GeneticAlgorithm.evaluate_fitness`: fitness-cache lookup, else
`1 / (1 + penalty)` with both caches filled. -/
def evaluate_fitness (obj : ObjectiveFunction) (caches : GACaches)
    (individual : State) : ℚ × GACaches :=
  match cacheFind caches.fit (stateFingerprint individual) with
  | some f => (f, caches)
  | none =>
    let penalty := obj.calculate individual
    let fitness := 1 / (1 + penalty)
    (fitness, ⟨cacheSet caches.fit (stateFingerprint individual) fitness,
               cacheSet caches.pen (stateFingerprint individual) penalty⟩)

/-- `GeneticAlgorithm.get_penalty`: penalty-cache lookup, else compute
and cache. -/
def get_penalty (obj : ObjectiveFunction) (caches : GACaches)
    (individual : State) : ℚ × GACaches :=
  match cacheFind caches.pen (stateFingerprint individual) with
  | some p => (p, caches)
  | none =>
    let penalty := obj.calculate individual
    (penalty, ⟨caches.fit, cacheSet caches.pen (stateFingerprint individual) penalty⟩)

/-- `GeneticAlgorithm.tournament_selection` (`random.sample` indices
from the oracle): the index with the strictly higher fitness wins, ties
go to the second index. -/
def tournament_selection (r : Rng) (t : Nat) (popLen : Nat)
    (fitnesses : List ℚ) : Nat :=
  let idx1 := (r.pair t).1 % popLen
  let idx2 := (r.pair t).2 % popLen
  if fitnesses.getD idx2 0 < fitnesses.getD idx1 0 then idx1 else idx2

/-- `GeneticAlgorithm.mutate`: no-op on an empty individual or
uninitialized catalogs; otherwise retime (same duration, start drawn in
`[7, 18 - duration]`), reroom, or reschedule one class through the
`random_fill` allocation loop. -/
def GeneticAlgorithm.mutate (classes : List CourseClass)
    (room_list : List Room) (r : Rng) (t : Nat) (ind : State) : State × Nat :=
  if ind.meetings = [] ∨ classes = [] ∨ room_list = [] then (ind, t)
  else
    let n := ind.meetings.length
    let mutation_type := r.int t 0 2
    if mutation_type = 0 then
      let j := r.idx (t + 1) % n
      let m := ind.meetings.getD j dummyAllocation
      let new_day := r.int (t + 2) 0 4
      let max_start := 18 - m.time_slot.duration
      let new_start := r.int (t + 3) 7 max_start
      let new_end := new_start + m.time_slot.duration
      (⟨ind.meetings.set j
          ⟨m.course_class, ⟨new_day, new_start, new_end⟩, m.room⟩⟩, t + 4)
    else if mutation_type = 1 ∧ ¬ room_list = [] then
      let j := r.idx (t + 1) % n
      let m := ind.meetings.getD j dummyAllocation
      let room := room_list.getD (r.idx (t + 2) % room_list.length) dummyRoom
      (⟨ind.meetings.set j ⟨m.course_class, m.time_slot, room⟩⟩, t + 3)
    else if mutation_type = 2 then
      let course_codes := r.shuffle (t + 1)
        ((ind.meetings.map (fun m => m.course_class.code)).dedup)
      if course_codes = [] then (ind, t + 2)
      else
        let chosen := course_codes.getD (r.idx (t + 2) % course_codes.length) ""
        let remaining := ind.meetings.filter
          (fun m => ¬ m.course_class.code = chosen)
        let cc := (classes.find? (fun c => c.code = chosen)).getD dummyClass
        let block := allocLoop r cc room_list cc.credits.toNat (t + 3) cc.credits
        (⟨remaining ++ block.1⟩, block.2)
    else (ind, t + 1)

/-- `GeneticAlgorithm.get_best_individual_index`:
`max(range(len), key=fitnesses.__getitem__)` — the first index
achieving the maximum (strict `<` replaces). -/
def get_best_individual_index (fitnesses : List ℚ) : Nat :=
  (List.range fitnesses.length).foldl
    (fun best i => if fitnesses.getD best 0 < fitnesses.getD i 0 then i else best) 0

/-- The `while len(new_population) < population_size` offspring loop of
`optimize`: two tournament selections, crossover, a 20% mutation coin
per child, fitness evaluation, append both children.  Each pass adds
two children, so `fuel = population_size` suffices. -/
def offspringGo (obj : ObjectiveFunction) (classes : List CourseClass)
    (room_list : List Room) (r : Rng) (population_size : Nat)
    (population : List State) (fitnesses : List ℚ) :
    Nat → Nat → List State → List ℚ → GACaches →
      List State × List ℚ × GACaches × Nat
  | 0, t, np, nf, caches => (np, nf, caches, t)
  | fuel + 1, t, np, nf, caches =>
    if np.length < population_size then
      let p1idx := tournament_selection r t population.length fitnesses
      let p2idx := tournament_selection r (t + 1) population.length fitnesses
      let cross := GeneticAlgorithm.crossover r (t + 2)
        (population.getD p1idx dummyState) (population.getD p2idx dummyState)
      let t3 := cross.2.2
      let mut1 :=
        if r.unit t3 < 1/5 then
          GeneticAlgorithm.mutate classes room_list r (t3 + 1) cross.1
        else (cross.1, t3 + 1)
      let mut2 :=
        if r.unit mut1.2 < 1/5 then
          GeneticAlgorithm.mutate classes room_list r (mut1.2 + 1) cross.2.1
        else (cross.2.1, mut1.2 + 1)
      let ev1 := evaluate_fitness obj caches mut1.1
      let ev2 := evaluate_fitness obj ev1.2 mut2.1
      offspringGo obj classes room_list r population_size population fitnesses
        fuel mut2.2 (np ++ [mut1.1, mut2.1]) (nf ++ [ev1.1, ev2.1]) ev2.2
    else (np, nf, caches, t)

/-- The `for generation in range(self.generations)` loop of `optimize`:
record average fitness and the best individual's penalty, break on a
perfect solution, otherwise build the next generation (elitism: the
deep-copied best individual and its fitness are placed first, then
offspring, then truncation to the population size). -/
def generationGo (obj : ObjectiveFunction) (classes : List CourseClass)
    (room_list : List Room) (r : Rng) (population_size : Nat) :
    Nat → Nat → List State → List ℚ → GACaches → List ℚ → List ℚ →
      List State × List ℚ × GACaches × List ℚ × List ℚ × Nat
  | 0, t, pop, fits, caches, fh, bph => (pop, fits, caches, fh, bph, t)
  | fuel + 1, t, pop, fits, caches, fh, bph =>
    let avg := fits.sum / (fits.length : ℚ)
    let bestIdx := get_best_individual_index fits
    let gp := get_penalty obj caches (pop.getD bestIdx dummyState)
    let fh' := fh ++ [avg]
    let bph' := bph ++ [gp.1]
    if gp.1 = 0 then (pop, fits, gp.2, fh', bph', t)
    else
      let elite := pop.getD bestIdx dummyState
      let off := offspringGo obj classes room_list r population_size pop fits
        population_size t [elite] [fits.getD bestIdx 0] gp.2
      generationGo obj classes room_list r population_size fuel off.2.2.2
        (off.1.take population_size) (off.2.1.take population_size)
        off.2.2.1 fh' bph'

/-- `GeneticAlgorithm.optimize` (the objective is the default
`ObjectiveFunction()`, all three terms enabled): validation, random
initial population, initial fitnesses, the generation loop, and the
final best individual with the `fitness_history` (average fitness per
generation) and `best_penalty_history` records. -/
def GeneticAlgorithm.optimize (population_size generations : Nat)
    (classes : List CourseClass) (room_list : List Room) (r : Rng) (t : Nat) :
    Except String (State × List ℚ × List ℚ) :=
  if classes = [] ∨ room_list = [] then
    Except.error ("Classes and rooms dictionaries cannot be empty")
  else
    let init := (List.range population_size).foldl
      (fun (acc : List State × Nat) _ =>
        let fill := State.random_fill r acc.2 classes room_list
        (acc.1 ++ [fill.1], fill.2))
      ([], t)
    let fits0 := init.1.foldl
      (fun (acc : List ℚ × GACaches) ind =>
        let ev := evaluate_fitness ⟨true, true, true⟩ acc.2 ind
        (acc.1 ++ [ev.1], ev.2))
      ([], ⟨[], []⟩)
    let gen := generationGo ⟨true, true, true⟩ classes room_list r
      population_size generations init.2 init.1 fits0.1 fits0.2 [] []
    let best := gen.1.getD (get_best_individual_index gen.2.1) dummyState
    Except.ok (best, gen.2.2.2.1, gen.2.2.2.2.1)

/-! ## C7: elitism makes the recorded best penalty non-increasing -/

theorem calculate_nonneg (f : ObjectiveFunction) (s : State)
    (hslots : ∀ m ∈ s.meetings, m.time_slot.start_hour ≤ m.time_slot.end_hour)
    (hcounts : ∀ m ∈ s.meetings, 0 ≤ m.course_class.studentCount) :
    0 ≤ f.calculate s := by
  unfold ObjectiveFunction.calculate
  have t1 : (0:ℚ) ≤ if f.student_conflict then calculate_time_conflict_penalty s else 0 := by
    split
    · exact time_conflict_nonneg s
    · exact le_refl 0
  have t2 : (0:ℚ) ≤ if f.room_conflict then calculate_room_conflict_penalty s else 0 := by
    split
    · exact room_conflict_nonneg s hcounts
    · exact le_refl 0
  have t3 : (0:ℚ) ≤ if f.capacity then calculate_capacity_penalty s else 0 := by
    split
    · exact capacity_nonneg s hslots
    · exact le_refl 0
  linarith

theorem calculate_perm (f : ObjectiveFunction) (s s' : State)
    (hp : s.meetings.Perm s'.meetings) : f.calculate s = f.calculate s' := by
  unfold ObjectiveFunction.calculate
  rw [time_conflict_perm s s' hp, room_conflict_perm s s' hp, capacity_perm s s' hp]

/-- Data-model well-formedness of one meeting relative to the shared
catalogs: the class and room are the unique catalog entries for their
codes, the slot is inside the working day, the enrollment count is
non-negative. -/
def MeetingOk (classes : List CourseClass) (room_list : List Room)
    (m : Allocation) : Prop :=
  classes.find? (fun c => c.code = m.course_class.code) = some m.course_class
  ∧ room_list.find? (fun rm => rm.code = m.room.code) = some m.room
  ∧ 7 ≤ m.time_slot.start_hour ∧ m.time_slot.start_hour < m.time_slot.end_hour
  ∧ m.time_slot.end_hour ≤ 18 ∧ 0 ≤ m.course_class.studentCount

def StateOk (classes : List CourseClass) (room_list : List Room)
    (s : State) : Prop :=
  ∀ m ∈ s.meetings, MeetingOk classes room_list m

/-- The catalog invariants guaranteed by the dict-keyed-by-code loaders:
lookup by code returns each entry itself, credits are positive,
enrollment counts are non-negative. -/
def ClassCatalogOk (classes : List CourseClass) : Prop :=
  (∀ c ∈ classes, classes.find? (fun c2 => c2.code = c.code) = some c)
  ∧ (∀ c ∈ classes, 0 < c.credits ∧ 0 ≤ c.studentCount)

def RoomCatalogOk (room_list : List Room) : Prop :=
  ∀ rm ∈ room_list, room_list.find? (fun r2 => r2.code = rm.code) = some rm

theorem getD_mod_mem {α : Type} (l : List α) (i : Nat) (d : α) (h : l ≠ []) :
    l.getD (i % l.length) d ∈ l := by
  have hlen : 0 < l.length := List.length_pos.mpr h
  have hlt : i % l.length < l.length := Nat.mod_lt i hlen
  rw [List.getD_eq_getElem l d hlt]
  exact List.getElem_mem hlt

/-- Re-assemble a meeting from its fingerprint tuple through the
catalogs. -/
def reconMeeting (classes : List CourseClass) (room_list : List Room)
    (tup : String × Int × Int × Int × String) : Allocation :=
  ⟨(classes.find? (fun c => c.code = tup.1)).getD dummyClass,
   ⟨tup.2.1, tup.2.2.1, tup.2.2.2.1⟩,
   (room_list.find? (fun rm => rm.code = tup.2.2.2.2)).getD dummyRoom⟩

theorem recon_tupOf (classes : List CourseClass) (room_list : List Room)
    (m : Allocation) (hm : MeetingOk classes room_list m) :
    reconMeeting classes room_list (tupOf m) = m := by
  unfold reconMeeting tupOf
  rw [hm.1, hm.2.1]
  rfl

/-- Equal fingerprints of catalog-consistent states force equal
penalties: the tuple multisets coincide, the meetings are reconstructed
from tuples, hence the meeting lists are permutations, and the penalty
is permutation-invariant. -/
theorem fingerprint_determines (f : ObjectiveFunction)
    (classes : List CourseClass) (room_list : List Room) (s s' : State)
    (hs : StateOk classes room_list s) (hs' : StateOk classes room_list s')
    (hfp : stateFingerprint s = stateFingerprint s') :
    f.calculate s = f.calculate s' := by
  have hperm : (s.meetings.map tupOf).Perm (s'.meetings.map tupOf) :=
    Multiset.coe_eq_coe.mp hfp
  have hrec : ∀ (x : State), StateOk classes room_list x →
      (x.meetings.map tupOf).map (reconMeeting classes room_list) = x.meetings := by
    intro x hx
    rw [List.map_map]
    calc x.meetings.map (reconMeeting classes room_list ∘ tupOf)
        = x.meetings.map id := by
          apply List.map_congr_left
          intro m hm
          exact recon_tupOf classes room_list m (hx m hm)
      _ = x.meetings := List.map_id x.meetings
  have hmeet : s.meetings.Perm s'.meetings := by
    rw [← hrec s hs, ← hrec s' hs']
    exact hperm.map _
  exact calculate_perm f s s' hmeet

/-- Soundness of the penalty cache: every entry is the penalty of some
catalog-consistent state with that fingerprint. -/
def PenCacheOk (classes : List CourseClass) (room_list : List Room)
    (pc : PenaltyCache) : Prop :=
  ∀ kv ∈ pc, ∃ s : State, StateOk classes room_list s
    ∧ stateFingerprint s = kv.1
    ∧ ObjectiveFunction.calculate ⟨true, true, true⟩ s = kv.2

/-- Soundness of the fitness cache. -/
def FitCacheOk (classes : List CourseClass) (room_list : List Room)
    (fc : PenaltyCache) : Prop :=
  ∀ kv ∈ fc, ∃ s : State, StateOk classes room_list s
    ∧ stateFingerprint s = kv.1
    ∧ 1 / (1 + ObjectiveFunction.calculate ⟨true, true, true⟩ s) = kv.2

theorem cacheSet_pred (P : Multiset (String × Int × Int × Int × String) × ℚ → Prop)
    (c : PenaltyCache) (k : Multiset (String × Int × Int × Int × String)) (v : ℚ)
    (hc : ∀ kv ∈ c, P kv) (hv : P (k, v)) :
    ∀ kv ∈ cacheSet c k v, P kv := by
  intro kv hkv
  unfold cacheSet at hkv
  split at hkv
  · obtain ⟨p, hp, rfl⟩ := List.mem_map.mp hkv
    by_cases h : p.1 = k
    · rw [if_pos h, h]
      exact hv
    · rw [if_neg h]
      exact hc p hp
  · rcases List.mem_append.mp hkv with h | h
    · exact hc kv h
    · rw [List.mem_singleton.mp h]
      exact hv

theorem cacheFind_pred (P : Multiset (String × Int × Int × Int × String) × ℚ → Prop)
    (c : PenaltyCache) (k : Multiset (String × Int × Int × Int × String)) (v : ℚ)
    (hc : ∀ kv ∈ c, P kv) (h : cacheFind c k = some v) : P (k, v) := by
  unfold cacheFind at h
  rcases hf : c.find? (fun p => p.1 = k) with _ | p
  · rw [hf] at h
    exact Option.noConfusion h
  · rw [hf] at h
    have hpv : p.2 = v := Option.some.inj h
    have h1 : p.1 = k := by
      have := List.find?_some hf
      simpa using this
    have h2 : p ∈ c := List.mem_of_find?_eq_some hf
    have h3 : p = (k, v) := by
      rcases p with ⟨pk, pv⟩
      simp only at h1 hpv
      rw [h1, hpv]
    rw [← h3]
    exact hc p h2

/-- `get_penalty` on a catalog-consistent individual returns its true
penalty, leaves the fitness cache alone and keeps the penalty cache
sound. -/
theorem get_penalty_correct (classes : List CourseClass)
    (room_list : List Room) (caches : GACaches) (ind : State)
    (hpen : PenCacheOk classes room_list caches.pen)
    (hind : StateOk classes room_list ind) :
    (get_penalty ⟨true, true, true⟩ caches ind).1
        = ObjectiveFunction.calculate ⟨true, true, true⟩ ind
    ∧ PenCacheOk classes room_list (get_penalty ⟨true, true, true⟩ caches ind).2.pen
    ∧ (get_penalty ⟨true, true, true⟩ caches ind).2.fit = caches.fit := by
  unfold get_penalty
  rcases hf : cacheFind caches.pen (stateFingerprint ind) with _ | v
  · refine ⟨rfl, ?_, rfl⟩
    show PenCacheOk classes room_list (cacheSet caches.pen (stateFingerprint ind)
      (ObjectiveFunction.calculate ⟨true, true, true⟩ ind))
    apply cacheSet_pred _ _ _ _ hpen
    exact ⟨ind, hind, rfl, rfl⟩
  · have hp := cacheFind_pred _ caches.pen _ v hpen hf
    obtain ⟨s, hsOk, hsfp, hsv⟩ := hp
    have hsv2 : ObjectiveFunction.calculate ⟨true, true, true⟩ s = v := hsv
    refine ⟨?_, hpen, rfl⟩
    show v = ObjectiveFunction.calculate ⟨true, true, true⟩ ind
    rw [← hsv2]
    exact fingerprint_determines ⟨true, true, true⟩ classes room_list s ind
      hsOk hind hsfp

/-- `evaluate_fitness` on a catalog-consistent individual returns its
true fitness `1 / (1 + penalty)` and keeps both caches sound. -/
theorem evaluate_fitness_correct (classes : List CourseClass)
    (room_list : List Room) (caches : GACaches) (ind : State)
    (hfit : FitCacheOk classes room_list caches.fit)
    (hpen : PenCacheOk classes room_list caches.pen)
    (hind : StateOk classes room_list ind) :
    (evaluate_fitness ⟨true, true, true⟩ caches ind).1
        = 1 / (1 + ObjectiveFunction.calculate ⟨true, true, true⟩ ind)
    ∧ FitCacheOk classes room_list (evaluate_fitness ⟨true, true, true⟩ caches ind).2.fit
    ∧ PenCacheOk classes room_list (evaluate_fitness ⟨true, true, true⟩ caches ind).2.pen := by
  unfold evaluate_fitness
  rcases hf : cacheFind caches.fit (stateFingerprint ind) with _ | v
  · refine ⟨rfl, ?_, ?_⟩
    · show FitCacheOk classes room_list (cacheSet caches.fit (stateFingerprint ind)
        (1 / (1 + ObjectiveFunction.calculate ⟨true, true, true⟩ ind)))
      apply cacheSet_pred _ _ _ _ hfit
      exact ⟨ind, hind, rfl, rfl⟩
    · show PenCacheOk classes room_list (cacheSet caches.pen (stateFingerprint ind)
        (ObjectiveFunction.calculate ⟨true, true, true⟩ ind))
      apply cacheSet_pred _ _ _ _ hpen
      exact ⟨ind, hind, rfl, rfl⟩
  · have hp := cacheFind_pred _ caches.fit _ v hfit hf
    obtain ⟨s, hsOk, hsfp, hsv⟩ := hp
    have hsv2 : 1 / (1 + ObjectiveFunction.calculate ⟨true, true, true⟩ s) = v := hsv
    refine ⟨?_, hfit, hpen⟩
    show v = 1 / (1 + ObjectiveFunction.calculate ⟨true, true, true⟩ ind)
    rw [← hsv2, fingerprint_determines ⟨true, true, true⟩ classes room_list s ind
      hsOk hind hsfp]

/-! ### List access and take/append helpers for the elitism proof -/

theorem getD_lt_mem {α : Type} (l : List α) (i : Nat) (d : α) (h : i < l.length) :
    l.getD i d ∈ l := by
  rw [List.getD_eq_getElem l d h]
  exact List.getElem_mem h

theorem getD_take {α : Type} (l : List α) (n i : Nat) (d : α)
    (h : i < n) : (l.take n).getD i d = l.getD i d := by
  by_cases h2 : i < l.length
  · rw [List.getD_eq_getElem _ d (by simp [List.length_take]; omega),
        List.getD_eq_getElem _ d h2]
    exact List.getElem_take l
  · have h3 : (l.take n).length ≤ i := by simp [List.length_take]; omega
    rw [List.getD_eq_default _ d h3, List.getD_eq_default _ d (by omega)]

/-! ### `random.sample`-based tournament indices stay in range -/

theorem tournament_lt (r : Rng) (t : Nat) (n : Nat) (fits : List ℚ)
    (h : 0 < n) : tournament_selection r t n fits < n := by
  unfold tournament_selection
  dsimp only
  split
  · exact Nat.mod_lt _ h
  · exact Nat.mod_lt _ h

/-! ### Rooms drawn inside `random_fill`'s allocation loop -/

theorem allocLoop_room_mem (r : Rng) (cls : CourseClass) (room_list : List Room)
    (hrne : room_list ≠ []) :
    ∀ (fuel t : Nat) (hours : Int),
      ∀ m ∈ (allocLoop r cls room_list fuel t hours).1, m.room ∈ room_list
  | 0, t, hours => by
    intro m hm
    simp [allocLoop] at hm
  | fuel + 1, t, hours => by
    intro m hm
    by_cases h : 0 < hours
    · simp only [allocLoop, if_pos h] at hm
      rcases List.mem_cons.mp hm with hm | hm
      · subst hm
        exact getD_mod_mem room_list _ dummyRoom hrne
      · exact allocLoop_room_mem r cls room_list hrne fuel (t + 4) _ m hm
    · simp [allocLoop, if_neg h] at hm

theorem allocLoop_MeetingOk (classes : List CourseClass) (r : Rng)
    (hr : Rng.IntOk r) (cls : CourseClass) (room_list : List Room)
    (hrcat : RoomCatalogOk room_list) (hrne : room_list ≠ [])
    (hfind : classes.find? (fun c => c.code = cls.code) = some cls)
    (hcnt : 0 ≤ cls.studentCount)
    (fuel t : Nat) (hours : Int) (hf : hours.toNat ≤ fuel) :
    ∀ m ∈ (allocLoop r cls room_list fuel t hours).1,
      MeetingOk classes room_list m := by
  intro m hm
  obtain ⟨hc, hs1, _, hd, he⟩ :=
    (allocLoop_spec r hr cls room_list fuel t hours hf).2 m hm
  have hrm : m.room ∈ room_list :=
    allocLoop_room_mem r cls room_list hrne fuel t hours m hm
  unfold TimeSlot.duration at hd
  refine ⟨?_, hrcat m.room hrm, hs1, by omega, he, ?_⟩
  · rw [hc]
    exact hfind
  · rw [hc]
    exact hcnt

theorem fillFold_room_mem (r : Rng) (rooms : List Room) (hrne : rooms ≠ []) :
    ∀ (classes : List CourseClass) (acc : List Allocation × Nat),
      (∀ m ∈ acc.1, m.room ∈ rooms) →
      ∀ m ∈ (fillFold r rooms classes acc).1, m.room ∈ rooms
  | [], acc => by
    intro hacc m hm
    exact hacc m hm
  | c0 :: rest, acc => by
    intro hacc m hm
    rw [fillFold_cons] at hm
    refine fillFold_room_mem r rooms hrne rest _ ?_ m hm
    intro m2 hm2
    rcases List.mem_append.mp hm2 with h | h
    · exact hacc m2 h
    · exact allocLoop_room_mem r c0 rooms hrne _ _ _ m2 h

/-! ### `random_fill` produces catalog-consistent states -/

theorem random_fill_StateOk (r : Rng) (hr : Rng.IntOk r) (t : Nat)
    (classes : List CourseClass) (rooms : List Room)
    (hccat : ClassCatalogOk classes) (hrcat : RoomCatalogOk rooms)
    (hrne : rooms ≠ []) :
    StateOk classes rooms (State.random_fill r t classes rooms).1 := by
  obtain ⟨tail, h1, h2, _⟩ := fillFold_spec r hr rooms classes ([], t)
  intro m hm
  have hmem : m ∈ (fillFold r rooms classes ([], t)).1 := hm
  have hroom : m.room ∈ rooms := fillFold_room_mem r rooms hrne classes ([], t)
    (by intro m2 hm2; simp at hm2) m hmem
  rw [h1] at hmem
  simp only [List.nil_append] at hmem
  obtain ⟨hcm, hs1, _, hd, he⟩ := h2 m hmem
  unfold TimeSlot.duration at hd
  exact ⟨hccat.1 m.course_class hcm, hrcat m.room hroom, hs1, by omega, he,
    (hccat.2 m.course_class hcm).2⟩

/-! ### `crossover` and `mutate` preserve catalog consistency -/

theorem crossover_StateOk (classes : List CourseClass) (rooms : List Room)
    (r : Rng) (t : Nat) (p1 p2 : State)
    (h1 : StateOk classes rooms p1) (h2 : StateOk classes rooms p2) :
    StateOk classes rooms (GeneticAlgorithm.crossover r t p1 p2).1
    ∧ StateOk classes rooms (GeneticAlgorithm.crossover r t p1 p2).2.1 := by
  unfold GeneticAlgorithm.crossover
  constructor <;> intro m hm <;> dsimp only at hm <;>
    rcases List.mem_append.mp hm with h | h <;>
    first
      | exact h1 m (List.mem_of_mem_filter h)
      | exact h2 m (List.mem_of_mem_filter h)

theorem mutate_StateOk (classes : List CourseClass) (rooms : List Room)
    (r : Rng) (hr : Rng.IntOk r) (hsh : Rng.ShuffleOk r) (t : Nat) (ind : State)
    (hrcat : RoomCatalogOk rooms) (hind : StateOk classes rooms ind) :
    StateOk classes rooms (GeneticAlgorithm.mutate classes rooms r t ind).1 := by
  unfold GeneticAlgorithm.mutate
  by_cases hA : ind.meetings = [] ∨ classes = [] ∨ rooms = []
  · rw [if_pos hA]
    exact hind
  · rw [if_neg hA]
    push_neg at hA
    obtain ⟨hne, hcne, hrne⟩ := hA
    dsimp only
    by_cases h0 : r.int t 0 2 = 0
    · rw [if_pos h0]
      intro x hx
      dsimp only at hx
      rcases List.mem_or_eq_of_mem_set hx with hx | hx
      · exact hind x hx
      · subst hx
        have hmm : ind.meetings.getD (r.idx (t + 1) % ind.meetings.length)
            dummyAllocation ∈ ind.meetings := getD_mod_mem _ _ _ hne
        obtain ⟨hcf, hrf, hs1, hlt, he18, hcnt⟩ := hind _ hmm
        have hdur : 1 ≤ (ind.meetings.getD (r.idx (t + 1) % ind.meetings.length)
              dummyAllocation).time_slot.duration
            ∧ (ind.meetings.getD (r.idx (t + 1) % ind.meetings.length)
              dummyAllocation).time_slot.duration ≤ 11 := by
          unfold TimeSlot.duration
          omega
        obtain ⟨hd1, hd11⟩ := hdur
        have hns := hr (t + 3) 7
          (18 - (ind.meetings.getD (r.idx (t + 1) % ind.meetings.length)
            dummyAllocation).time_slot.duration) (by omega)
        obtain ⟨hns1, hns2⟩ := hns
        refine ⟨hcf, hrf, ?_, ?_, ?_, hcnt⟩ <;> dsimp only <;> omega
    · rw [if_neg h0]
      by_cases h1 : r.int t 0 2 = 1
      · rw [if_pos ⟨h1, hrne⟩]
        intro x hx
        dsimp only at hx
        rcases List.mem_or_eq_of_mem_set hx with hx | hx
        · exact hind x hx
        · subst hx
          have hmm : ind.meetings.getD (r.idx (t + 1) % ind.meetings.length)
              dummyAllocation ∈ ind.meetings := getD_mod_mem _ _ _ hne
          obtain ⟨hcf, _, hs1, hlt, he18, hcnt⟩ := hind _ hmm
          have hroom : rooms.getD (r.idx (t + 2) % rooms.length) dummyRoom ∈ rooms :=
            getD_mod_mem _ _ _ hrne
          exact ⟨hcf, hrcat _ hroom, hs1, hlt, he18, hcnt⟩
      · rw [if_neg (fun hand => h1 hand.1)]
        by_cases h2 : r.int t 0 2 = 2
        · rw [if_pos h2]
          by_cases hcc : r.shuffle (t + 1)
              ((ind.meetings.map (fun m => m.course_class.code)).dedup) = []
          · rw [if_pos hcc]
            exact hind
          · rw [if_neg hcc]
            intro x hx
            dsimp only at hx
            rcases List.mem_append.mp hx with hx | hx
            · exact hind x (List.mem_of_mem_filter hx)
            · set CODES := r.shuffle (t + 1)
                ((ind.meetings.map (fun m => m.course_class.code)).dedup) with hCODES
              set CH := CODES.getD (r.idx (t + 2) % CODES.length) "" with hCH
              have hch : CH ∈ CODES := getD_mod_mem _ _ _ hcc
              have hch2 : CH ∈ (ind.meetings.map (fun m => m.course_class.code)).dedup :=
                ((hsh (t + 1) _).mem_iff).mp hch
              have hch3 : CH ∈ ind.meetings.map (fun m => m.course_class.code) :=
                List.mem_dedup.mp hch2
              obtain ⟨m0, hm0, hm0c⟩ := List.mem_map.mp hch3
              have hm0ok := hind m0 hm0
              have hfind : classes.find? (fun c => c.code = CH) = some m0.course_class := by
                rw [← hm0c]
                exact hm0ok.1
              have hccEq : (classes.find? (fun c => c.code = CH)).getD dummyClass
                  = m0.course_class := by
                rw [hfind]
                rfl
              rw [hccEq] at hx
              exact allocLoop_MeetingOk classes r hr m0.course_class rooms hrcat hrne
                hm0ok.1 hm0ok.2.2.2.2.2 _ _ _ (le_refl _) x hx
        · rw [if_neg h2]
          exact hind

/-! ### `max(range(len), key=...)` : the selected index is in range and
maximal -/

theorem foldl_argmax_ge (f : Nat → ℚ) :
    ∀ (l : List Nat) (b : Nat),
      f b ≤ f (l.foldl (fun best i => if f best < f i then i else best) b)
      ∧ ∀ i ∈ l, f i ≤ f (l.foldl (fun best i => if f best < f i then i else best) b)
  | [], b => ⟨le_refl _, by intro i h; cases h⟩
  | a :: l, b => by
    have ih := foldl_argmax_ge f l (if f b < f a then a else b)
    rw [List.foldl_cons]
    constructor
    · refine le_trans ?_ ih.1
      split
      · next h => exact le_of_lt h
      · exact le_refl _
    · intro i hi
      rcases List.mem_cons.mp hi with h | h
      · subst h
        refine le_trans ?_ ih.1
        split
        · exact le_refl _
        · next h => exact le_of_not_lt h
      · exact ih.2 i h

theorem foldl_argmax_mem (f : Nat → ℚ) :
    ∀ (l : List Nat) (b : Nat),
      l.foldl (fun best i => if f best < f i then i else best) b = b
      ∨ l.foldl (fun best i => if f best < f i then i else best) b ∈ l
  | [], b => Or.inl rfl
  | a :: l, b => by
    rw [List.foldl_cons]
    rcases foldl_argmax_mem f l (if f b < f a then a else b) with h | h
    · rw [h]
      split
      · exact Or.inr (List.mem_cons_self a l)
      · exact Or.inl rfl
    · exact Or.inr (List.mem_cons_of_mem a h)

theorem best_index_lt (fits : List ℚ) (h : fits ≠ []) :
    get_best_individual_index fits < fits.length := by
  unfold get_best_individual_index
  rcases foldl_argmax_mem (fun j => fits.getD j 0) (List.range fits.length) 0
    with hm | hm
  · rw [hm]
    exact List.length_pos.mpr h
  · exact List.mem_range.mp hm

theorem best_index_max (fits : List ℚ) :
    ∀ j, j < fits.length →
      fits.getD j 0 ≤ fits.getD (get_best_individual_index fits) 0 := by
  intro j hj
  unfold get_best_individual_index
  exact (foldl_argmax_ge (fun j => fits.getD j 0) (List.range fits.length) 0).2
    j (List.mem_range.mpr hj)

theorem calculate_nonneg_of_StateOk (classes : List CourseClass)
    (rooms : List Room) (s : State) (h : StateOk classes rooms s) :
    0 ≤ ObjectiveFunction.calculate ⟨true, true, true⟩ s :=
  calculate_nonneg _ s (fun m hm => le_of_lt (h m hm).2.2.2.1)
    (fun m hm => (h m hm).2.2.2.2.2)

/-- The offspring loop of `optimize` only ever appends to the
accumulated next generation, keeps every individual catalog-consistent,
keeps both caches sound, and keeps the accumulated fitness list the
pointwise true fitness `1 / (1 + penalty)` of the accumulated
population.  In particular the elite placed at position 0 before the
loop is still at position 0 afterwards. -/
theorem offspringGo_spec (classes : List CourseClass) (rooms : List Room)
    (r : Rng) (hr : Rng.IntOk r) (hsh : Rng.ShuffleOk r)
    (hrcat : RoomCatalogOk rooms) (population_size : Nat)
    (population : List State) (fitnesses : List ℚ)
    (hpop : ∀ s ∈ population, StateOk classes rooms s)
    (hpne : population ≠ []) :
    ∀ (fuel t : Nat) (np : List State) (nf : List ℚ) (caches : GACaches),
      FitCacheOk classes rooms caches.fit →
      PenCacheOk classes rooms caches.pen →
      nf.length = np.length →
      (∀ s ∈ np, StateOk classes rooms s) →
      (∀ i, i < np.length → nf.getD i 0
        = 1 / (1 + ObjectiveFunction.calculate ⟨true, true, true⟩
            (np.getD i dummyState))) →
      ∃ np2 nf2,
        (offspringGo ⟨true, true, true⟩ classes rooms r population_size
            population fitnesses fuel t np nf caches).1 = np ++ np2
        ∧ (offspringGo ⟨true, true, true⟩ classes rooms r population_size
            population fitnesses fuel t np nf caches).2.1 = nf ++ nf2
        ∧ FitCacheOk classes rooms
            (offspringGo ⟨true, true, true⟩ classes rooms r population_size
              population fitnesses fuel t np nf caches).2.2.1.fit
        ∧ PenCacheOk classes rooms
            (offspringGo ⟨true, true, true⟩ classes rooms r population_size
              population fitnesses fuel t np nf caches).2.2.1.pen
        ∧ (nf ++ nf2).length = (np ++ np2).length
        ∧ (∀ s ∈ np ++ np2, StateOk classes rooms s)
        ∧ (∀ i, i < (np ++ np2).length → (nf ++ nf2).getD i 0
            = 1 / (1 + ObjectiveFunction.calculate ⟨true, true, true⟩
                ((np ++ np2).getD i dummyState))) := by
  intro fuel
  induction fuel with
  | zero =>
    intro t np nf caches hfc hpc hlen hok hpt
    refine ⟨[], [], by simp [offspringGo], by simp [offspringGo],
      by simpa [offspringGo] using hfc, by simpa [offspringGo] using hpc,
      by simp [hlen], by simpa using hok, ?_⟩
    intro i hi
    simp only [List.append_nil] at hi ⊢
    exact hpt i hi
  | succ n IH =>
    intro t np nf caches hfc hpc hlen hok hpt
    by_cases hlt : np.length < population_size
    · simp only [offspringGo]
      rw [if_pos hlt]
      set P1 := population.getD
        (tournament_selection r t population.length fitnesses) dummyState with hP1
      set P2 := population.getD
        (tournament_selection r (t + 1) population.length fitnesses) dummyState with hP2
      set CR := GeneticAlgorithm.crossover r (t + 2) P1 P2 with hCR
      set M1 := if r.unit CR.2.2 < 1/5 then
          GeneticAlgorithm.mutate classes rooms r (CR.2.2 + 1) CR.1
        else (CR.1, CR.2.2 + 1) with hM1
      set M2 := if r.unit M1.2 < 1/5 then
          GeneticAlgorithm.mutate classes rooms r (M1.2 + 1) CR.2.1
        else (CR.2.1, M1.2 + 1) with hM2
      set E1 := evaluate_fitness ⟨true, true, true⟩ caches M1.1 with hE1
      set E2 := evaluate_fitness ⟨true, true, true⟩ E1.2 M2.1 with hE2
      have hplen : 0 < population.length := List.length_pos.mpr hpne
      have hP1ok : StateOk classes rooms P1 :=
        hpop _ (getD_lt_mem _ _ _ (tournament_lt r t population.length fitnesses hplen))
      have hP2ok : StateOk classes rooms P2 :=
        hpop _ (getD_lt_mem _ _ _ (tournament_lt r (t + 1) population.length fitnesses hplen))
      have hcr := crossover_StateOk classes rooms r (t + 2) P1 P2 hP1ok hP2ok
      have hM1ok : StateOk classes rooms M1.1 := by
        rw [hM1]
        split
        · exact mutate_StateOk classes rooms r hr hsh _ _ hrcat hcr.1
        · exact hcr.1
      have hM2ok : StateOk classes rooms M2.1 := by
        rw [hM2]
        split
        · exact mutate_StateOk classes rooms r hr hsh _ _ hrcat hcr.2
        · exact hcr.2
      have hE1c := evaluate_fitness_correct classes rooms caches M1.1 hfc hpc hM1ok
      rw [← hE1] at hE1c
      have hE2c := evaluate_fitness_correct classes rooms E1.2 M2.1
        hE1c.2.1 hE1c.2.2 hM2ok
      rw [← hE2] at hE2c
      have hlen2 : (nf ++ [E1.1, E2.1]).length = (np ++ [M1.1, M2.1]).length := by
        simp [hlen]
      have hok2 : ∀ s ∈ np ++ [M1.1, M2.1], StateOk classes rooms s := by
        intro s hs
        rcases List.mem_append.mp hs with h | h
        · exact hok s h
        · rcases List.mem_cons.mp h with h | h
          · subst h
            exact hM1ok
          · rw [List.mem_singleton] at h
            subst h
            exact hM2ok
      have hpt2 : ∀ i, i < (np ++ [M1.1, M2.1]).length →
          (nf ++ [E1.1, E2.1]).getD i 0
            = 1 / (1 + ObjectiveFunction.calculate ⟨true, true, true⟩
                ((np ++ [M1.1, M2.1]).getD i dummyState)) := by
        intro i hi
        have hi2 : i < np.length + 2 := by simpa using hi
        by_cases h1 : i < np.length
        · rw [List.getD_append _ _ _ _ (by omega : i < nf.length),
              List.getD_append _ _ _ _ h1]
          exact hpt i h1
        · rw [List.getD_append_right _ _ _ _ (by omega : nf.length ≤ i),
              List.getD_append_right _ _ _ _ (by omega : np.length ≤ i), hlen]
          have hcase : i - np.length = 0 ∨ i - np.length = 1 := by omega
          rcases hcase with h | h
          · rw [h]
            simp only [List.getD_cons_zero]
            exact hE1c.1
          · rw [h]
            simp only [List.getD_cons_succ, List.getD_cons_zero]
            exact hE2c.1
      obtain ⟨np2, nf2, e1, e2, e3, e4, e5, e6, e7⟩ :=
        IH M2.2 (np ++ [M1.1, M2.1]) (nf ++ [E1.1, E2.1]) E2.2
          hE2c.2.1 hE2c.2.2 hlen2 hok2 hpt2
      refine ⟨[M1.1, M2.1] ++ np2, [E1.1, E2.1] ++ nf2, ?_, ?_, e3, e4, ?_, ?_, ?_⟩
      · rw [e1, List.append_assoc]
      · rw [e2, List.append_assoc]
      · rw [← List.append_assoc, ← List.append_assoc]
        exact e5
      · intro s hs
        exact e6 s (by rw [List.append_assoc]; exact hs)
      · intro i hi
        have := e7 i (by rw [List.append_assoc]; exact hi)
        rw [← List.append_assoc, ← List.append_assoc]
        exact this
    · simp only [offspringGo]
      rw [if_neg hlt]
      refine ⟨[], [], by simp, by simp, by simpa using hfc, by simpa using hpc,
        by simp [hlen], by simpa using hok, ?_⟩
      intro i hi
      simp only [List.append_nil] at hi ⊢
      exact hpt i hi

/-- The generation loop of `optimize` records a non-increasing
`best_penalty_history`: each generation first records the penalty of
its best individual; elitism then copies that individual (and its
fitness) to position 0 of the next generation, truncation to the
population size keeps it, and the next argmax over the true fitnesses
can only pick an individual whose penalty is at most the elite's. -/
theorem generationGo_spec (classes : List CourseClass) (rooms : List Room)
    (r : Rng) (hr : Rng.IntOk r) (hsh : Rng.ShuffleOk r)
    (hrcat : RoomCatalogOk rooms) (population_size : Nat)
    (hps : 1 ≤ population_size) :
    ∀ (fuel t : Nat) (pop : List State) (fits : List ℚ) (caches : GACaches)
      (fh bph : List ℚ),
      pop ≠ [] →
      fits.length = pop.length →
      (∀ s ∈ pop, StateOk classes rooms s) →
      (∀ i, i < pop.length → fits.getD i 0
        = 1 / (1 + ObjectiveFunction.calculate ⟨true, true, true⟩
            (pop.getD i dummyState))) →
      FitCacheOk classes rooms caches.fit →
      PenCacheOk classes rooms caches.pen →
      List.Chain' (fun a b => b ≤ a) bph →
      (∀ x ∈ bph.getLast?,
        ObjectiveFunction.calculate ⟨true, true, true⟩
          (pop.getD (get_best_individual_index fits) dummyState) ≤ x) →
      List.Chain' (fun a b => b ≤ a)
        (generationGo ⟨true, true, true⟩ classes rooms r population_size
          fuel t pop fits caches fh bph).2.2.2.2.1 := by
  intro fuel
  induction fuel with
  | zero =>
    intro t pop fits caches fh bph hpne hlen hok hpt hfc hpc hchain hlast
    simpa [generationGo] using hchain
  | succ n IH =>
    intro t pop fits caches fh bph hpne hlen hok hpt hfc hpc hchain hlast
    simp only [generationGo]
    set B := get_best_individual_index fits with hB
    set GP := get_penalty ⟨true, true, true⟩ caches (pop.getD B dummyState) with hGP
    have hflen : 0 < fits.length := by
      rw [hlen]
      exact List.length_pos.mpr hpne
    have hfne : fits ≠ [] := List.length_pos.mp hflen
    have hBlt : B < fits.length := best_index_lt fits hfne
    have hBpop : B < pop.length := by
      rw [← hlen]
      exact hBlt
    have hEmem : pop.getD B dummyState ∈ pop := getD_lt_mem _ _ _ hBpop
    have hEok : StateOk classes rooms (pop.getD B dummyState) := hok _ hEmem
    have hgpc := get_penalty_correct classes rooms caches (pop.getD B dummyState)
      hpc hEok
    rw [← hGP] at hgpc
    have hchain2 : List.Chain' (fun a b => b ≤ a) (bph ++ [GP.1]) := by
      rw [List.chain'_append]
      refine ⟨hchain, List.chain'_singleton _, ?_⟩
      intro x hx y hy
      simp only [List.head?_cons, Option.mem_def, Option.some.injEq] at hy
      subst hy
      rw [hgpc.1]
      exact hlast x hx
    by_cases hz : GP.1 = 0
    · rw [if_pos hz]
      exact hchain2
    · rw [if_neg hz]
      set OFF := offspringGo ⟨true, true, true⟩ classes rooms r population_size
        pop fits population_size t [pop.getD B dummyState] [fits.getD B 0] GP.2
        with hOFF
      have hfc2 : FitCacheOk classes rooms GP.2.fit := by
        rw [hgpc.2.2]
        exact hfc
      have hpt1 : ∀ i, i < ([pop.getD B dummyState] : List State).length →
          ([fits.getD B 0] : List ℚ).getD i 0
            = 1 / (1 + ObjectiveFunction.calculate ⟨true, true, true⟩
                (([pop.getD B dummyState] : List State).getD i dummyState)) := by
        intro i hi
        have hi0 : i = 0 := by
          simp only [List.length_cons, List.length_nil] at hi
          omega
        subst hi0
        simp only [List.getD_cons_zero]
        exact hpt B hBpop
      obtain ⟨np2, nf2, o1, o2, o3, o4, o5, o6, o7⟩ :=
        offspringGo_spec classes rooms r hr hsh hrcat population_size pop fits
          hok hpne population_size t [pop.getD B dummyState] [fits.getD B 0] GP.2
          hfc2 hgpc.2.1 rfl
          (by
            intro s hs
            rw [List.mem_singleton] at hs
            subst hs
            exact hEok)
          hpt1
      rw [← hOFF] at o1 o2 o3 o4
      simp only [List.singleton_append] at o1 o2 o5 o6 o7
      have hlo : OFF.2.1.length = OFF.1.length := by
        rw [o1, o2]
        exact o5
      have holen : 0 < OFF.1.length := by
        rw [o1]
        simp
      refine IH _ _ _ _ _ _ ?_ ?_ ?_ ?_ o3 o4 hchain2 ?_
      · rw [o1]
        obtain ⟨k, hk⟩ : ∃ k, population_size = k + 1 :=
          ⟨population_size - 1, by omega⟩
        rw [hk, List.take_succ_cons]
        exact List.cons_ne_nil _ _
      · rw [List.length_take, List.length_take, hlo]
      · intro s hs
        apply o6
        rw [← o1]
        exact List.mem_of_mem_take hs
      · intro i hi
        rw [List.length_take, Nat.lt_min] at hi
        rw [getD_take _ _ _ _ hi.1, getD_take _ _ _ _ hi.1, o1, o2]
        refine o7 i ?_
        rw [← o1]
        exact hi.2
      · intro x hx
        rw [List.getLast?_concat] at hx
        simp only [Option.mem_def, Option.some.injEq] at hx
        subst hx
        set FITS2 := OFF.2.1.take population_size with hF2
        set B2 := get_best_individual_index FITS2 with hB2
        have hf2len : 0 < FITS2.length := by
          rw [hF2, List.length_take]
          omega
        have hfne2 : FITS2 ≠ [] := List.length_pos.mp hf2len
        have hB2lt : B2 < FITS2.length := best_index_lt FITS2 hfne2
        have hB2ps : B2 < population_size ∧ B2 < OFF.2.1.length := by
          rw [hF2, List.length_take, Nat.lt_min] at hB2lt
          exact hB2lt
        have hB2off : B2 < OFF.1.length := by
          rw [← hlo]
          exact hB2ps.2
        have hmax : FITS2.getD 0 0 ≤ FITS2.getD B2 0 :=
          best_index_max FITS2 0 hf2len
        have hv0 : FITS2.getD 0 0 = 1 / (1 + GP.1) := by
          rw [hF2, getD_take _ _ _ _ (by omega : 0 < population_size), o2]
          simp only [List.getD_cons_zero]
          rw [hpt B hBpop, hgpc.1]
        have hvB : FITS2.getD B2 0
            = 1 / (1 + ObjectiveFunction.calculate ⟨true, true, true⟩
                (OFF.1.getD B2 dummyState)) := by
          rw [hF2, getD_take _ _ _ _ hB2ps.1, o2]
          have := o7 B2 (by rw [← o1]; exact hB2off)
          rw [← o1] at this
          exact this
        have hgoal : (OFF.1.take population_size).getD B2 dummyState
            = OFF.1.getD B2 dummyState := getD_take _ _ _ _ hB2ps.1
        rw [hgoal]
        have hmemB2 : OFF.1.getD B2 dummyState ∈ OFF.1 :=
          getD_lt_mem _ _ _ hB2off
        have hokB2 : StateOk classes rooms (OFF.1.getD B2 dummyState) := by
          apply o6
          rw [← o1]
          exact hmemB2
        have hp0 : 0 ≤ GP.1 := by
          rw [hgpc.1]
          exact calculate_nonneg_of_StateOk classes rooms _ hEok
        have hpB : 0 ≤ ObjectiveFunction.calculate ⟨true, true, true⟩
            (OFF.1.getD B2 dummyState) :=
          calculate_nonneg_of_StateOk classes rooms _ hokB2
        rw [hv0, hvB] at hmax
        have hmul := (div_le_div_iff₀ (by linarith : (0:ℚ) < 1 + GP.1)
          (by linarith : (0:ℚ) < 1 + ObjectiveFunction.calculate ⟨true, true, true⟩
            (OFF.1.getD B2 dummyState))).mp hmax
        linarith

/-! ### The initial population and its fitness evaluation -/

theorem initPop_spec (r : Rng) (hr : Rng.IntOk r) (classes : List CourseClass)
    (rooms : List Room) (hccat : ClassCatalogOk classes)
    (hrcat : RoomCatalogOk rooms) (hrne : rooms ≠ []) :
    ∀ (n : Nat) (acc : List State × Nat),
      (∀ s ∈ acc.1, StateOk classes rooms s) →
      ((List.range n).foldl
          (fun (acc : List State × Nat) _ =>
            let fill := State.random_fill r acc.2 classes rooms
            (acc.1 ++ [fill.1], fill.2)) acc).1.length = acc.1.length + n
      ∧ ∀ s ∈ ((List.range n).foldl
          (fun (acc : List State × Nat) _ =>
            let fill := State.random_fill r acc.2 classes rooms
            (acc.1 ++ [fill.1], fill.2)) acc).1, StateOk classes rooms s
  | 0, acc => by
    intro hacc
    exact ⟨by simp, hacc⟩
  | n + 1, acc => by
    intro hacc
    obtain ⟨ihlen, ihok⟩ := initPop_spec r hr classes rooms hccat hrcat hrne n acc hacc
    rw [List.range_succ, List.foldl_append, List.foldl_cons, List.foldl_nil]
    constructor
    · dsimp only
      rw [List.length_append, ihlen]
      simp
      omega
    · intro s hs
      dsimp only at hs
      rcases List.mem_append.mp hs with h | h
      · exact ihok s h
      · rw [List.mem_singleton] at h
        subst h
        exact random_fill_StateOk r hr _ classes rooms hccat hrcat hrne

theorem initFits_spec (classes : List CourseClass) (rooms : List Room) :
    ∀ (pops : List State) (acc : List ℚ × GACaches),
      (∀ s ∈ pops, StateOk classes rooms s) →
      FitCacheOk classes rooms acc.2.fit →
      PenCacheOk classes rooms acc.2.pen →
      ∃ tail : List ℚ,
        (pops.foldl
            (fun (acc : List ℚ × GACaches) ind =>
              let ev := evaluate_fitness ⟨true, true, true⟩ acc.2 ind
              (acc.1 ++ [ev.1], ev.2)) acc).1 = acc.1 ++ tail
        ∧ tail.length = pops.length
        ∧ FitCacheOk classes rooms (pops.foldl
            (fun (acc : List ℚ × GACaches) ind =>
              let ev := evaluate_fitness ⟨true, true, true⟩ acc.2 ind
              (acc.1 ++ [ev.1], ev.2)) acc).2.fit
        ∧ PenCacheOk classes rooms (pops.foldl
            (fun (acc : List ℚ × GACaches) ind =>
              let ev := evaluate_fitness ⟨true, true, true⟩ acc.2 ind
              (acc.1 ++ [ev.1], ev.2)) acc).2.pen
        ∧ ∀ i, i < pops.length → tail.getD i 0
            = 1 / (1 + ObjectiveFunction.calculate ⟨true, true, true⟩
                (pops.getD i dummyState))
  | [], acc => by
    intro hpops hfc hpc
    exact ⟨[], by simp, rfl, hfc, hpc, by intro i hi; cases hi⟩
  | p :: rest, acc => by
    intro hpops hfc hpc
    have hpok : StateOk classes rooms p := hpops p (List.mem_cons_self p rest)
    have hev := evaluate_fitness_correct classes rooms acc.2 p hfc hpc hpok
    obtain ⟨tail, h1, h2, h3, h4, h5⟩ := initFits_spec classes rooms rest
      (acc.1 ++ [(evaluate_fitness ⟨true, true, true⟩ acc.2 p).1],
        (evaluate_fitness ⟨true, true, true⟩ acc.2 p).2)
      (fun s hs => hpops s (List.mem_cons_of_mem p hs)) hev.2.1 hev.2.2
    rw [List.foldl_cons]
    refine ⟨(evaluate_fitness ⟨true, true, true⟩ acc.2 p).1 :: tail, ?_, ?_, h3, h4, ?_⟩
    · dsimp only
      rw [h1, List.append_assoc]
      rfl
    · simp [h2]
    · intro i hi
      match i with
      | 0 =>
        simp only [List.getD_cons_zero]
        exact hev.1
      | j + 1 =>
        simp only [List.getD_cons_succ]
        refine h5 j ?_
        simp only [List.length_cons] at hi
        omega

/-- **C7**: in `GeneticAlgorithm.optimize`, for every catalog-consistent
input (code-keyed class and room dictionaries, a non-empty room list, a
positive population size) and every `randint`/`shuffle`-conforming
random oracle, the run succeeds and the recorded
`best_penalty_history` is monotone non-increasing between consecutive
generations: elitism deep-copies the single best individual (and its
fitness) into slot 0 of the next generation, truncation to the
population size never removes slot 0, and the next generation's argmax
over the true fitnesses `1 / (1 + penalty)` can only select an
individual whose penalty is at most the elite's. -/
theorem c7_elitism_monotone_best_penalty (population_size generations : Nat)
    (classes : List CourseClass) (room_list : List Room) (r : Rng) (t : Nat)
    (hr : Rng.IntOk r) (hsh : Rng.ShuffleOk r)
    (hccat : ClassCatalogOk classes) (hrcat : RoomCatalogOk room_list)
    (hcne : classes ≠ []) (hrne : room_list ≠ [])
    (hps : 1 ≤ population_size) :
    ∃ (best : State) (fh bph : List ℚ),
      GeneticAlgorithm.optimize population_size generations classes room_list r t
        = Except.ok (best, fh, bph)
      ∧ List.Chain' (fun a b => b ≤ a) bph := by
  have hcond : ¬(classes = [] ∨ room_list = []) := by
    intro h
    rcases h with h | h
    · exact hcne h
    · exact hrne h
  unfold GeneticAlgorithm.optimize
  rw [if_neg hcond]
  refine ⟨_, _, _, rfl, ?_⟩
  obtain ⟨hilen, hiok⟩ := initPop_spec r hr classes room_list hccat hrcat hrne
    population_size ([], t) (by intro s hs; simp at hs)
  have hlen0 : ((List.range population_size).foldl
      (fun (acc : List State × Nat) _ =>
        let fill := State.random_fill r acc.2 classes room_list
        (acc.1 ++ [fill.1], fill.2)) ([], t)).1.length = population_size :=
    hilen.trans (by simp)
  obtain ⟨tail, hf1, hf2, hf3, hf4, hf5⟩ := initFits_spec classes room_list
    ((List.range population_size).foldl
      (fun (acc : List State × Nat) _ =>
        let fill := State.random_fill r acc.2 classes room_list
        (acc.1 ++ [fill.1], fill.2)) ([], t)).1
    ([], ⟨[], []⟩) hiok (by intro kv hkv; simp at hkv) (by intro kv hkv; simp at hkv)
  dsimp only at hf1
  rw [List.nil_append] at hf1
  refine generationGo_spec classes room_list r hr hsh hrcat population_size hps
    generations _ _ _ _ _ _ ?_ ?_ ?_ ?_ ?_ ?_ ?_ ?_
  · intro h
    rw [h] at hlen0
    simp at hlen0
    omega
  · rw [hf1]
    exact hf2
  · exact hiok
  · intro i hi
    rw [hf1]
    exact hf5 i hi
  · exact hf3
  · exact hf4
  · exact List.chain'_nil
  · intro x hx
    simp at hx

/-- Witness for C7 at a concrete one-class, one-room instance with a
conforming oracle. -/
theorem c7_elitism_monotone_best_penalty_witness :
    ∃ (best : State) (fh bph : List ℚ),
      GeneticAlgorithm.optimize 1 1 [clsE] [roomR] rngLo 0
        = Except.ok (best, fh, bph)
      ∧ List.Chain' (fun a b => b ≤ a) bph :=
  c7_elitism_monotone_best_penalty 1 1 [clsE] [roomR] rngLo 0 rngLo_IntOk
    (fun _ l => List.Perm.refl l) (by unfold ClassCatalogOk; decide)
    (by unfold RoomCatalogOk; decide) (by decide) (by decide) (by decide)
